import Mathlib

/-!
Verification development for the binary-introspection pipeline of
src/elf_diff/binary.py.  Lines of tool output are modelled as lists of
characters (one list per line, as produced by str.splitlines, so no newline
characters occur inside a line).  Each regular expression of the source is
embedded as an explicit parser with the same greedy/backtracking semantics,
and each phase of the pipeline as a pure state-passing function.
-/

namespace ElfDiff

/-! ### Character classes of the regular expressions -/

/-- Python regex class backslash-s on the ASCII inputs produced by binutils. -/
def pyIsSpace (c : Char) : Bool :=
  c = ' ' || c = '\t' || c = '\n' || c = '\r' || c = '\x0b' || c = '\x0c'

/-- The class [0-9A-Fa-f]. -/
def isHexAny (c : Char) : Bool :=
  (('0' ≤ c) && (c ≤ '9')) || (('a' ≤ c) && (c ≤ 'f')) || (('A' ≤ c) && (c ≤ 'F'))

/-- The class [0-9a-f] used by the readelf regexes. -/
def isHexLower (c : Char) : Bool :=
  (('0' ≤ c) && (c ≤ '9')) || (('a' ≤ c) && (c ≤ 'f'))

/-- The class backslash-d, i.e. [0-9]. -/
def isDigitCh (c : Char) : Bool := ('0' ≤ c) && (c ≤ '9')

/-- The class backslash-w, i.e. [0-9a-zA-Z_] on ASCII input. -/
def isWordCh (c : Char) : Bool :=
  (('0' ≤ c) && (c ≤ '9')) || (('a' ≤ c) && (c ≤ 'z')) ||
    (('A' ≤ c) && (c ≤ 'Z')) || c = '_'

/-- A line or name: one line of decoded tool output. -/
abbrev NameC := List Char

/-! ### Python dict, modelled as an association list with insertion order -/

def dictLookup [DecidableEq α] (k : α) : List (α × β) → Option β
  | [] => none
  | (k0, v0) :: t => if k0 = k then some v0 else dictLookup k t

/-- d[k] = v : updates the value in place if the key exists, appends otherwise. -/
def dictInsert [DecidableEq α] (k : α) (v : β) : List (α × β) → List (α × β)
  | [] => [(k, v)]
  | (k0, v0) :: t => if k0 = k then (k0, v) :: t else (k0, v0) :: dictInsert k v t

/-- Mutation of the object stored under an existing key (Python aliasing:
the dict holds a reference, mutating the object mutates the entry). -/
def dictUpdate [DecidableEq α] (k : α) (f : β → β) : List (α × β) → List (α × β)
  | [] => []
  | (k0, v0) :: t => if k0 = k then (k0, f v0) :: t else (k0, v0) :: dictUpdate k f t

def dictKeys (d : List (α × β)) : List α := d.map Prod.fst

def dictContains [DecidableEq α] (k : α) (d : List (α × β)) : Bool :=
  (dictLookup k d).isSome

/-! ### Python int() on a decoded string (base 10) -/

def natOfDigits : List Char → Nat :=
  List.foldl (fun n c => 10 * n + (c.toNat - Char.toNat '0')) 0

/-- int(s): optional surrounding whitespace, optional sign, then decimal
digits.  Returns none where CPython raises ValueError.  (The PEP 515
underscore form never occurs in binutils output and is not modelled.) -/
def pyInt (l : NameC) : Option Int :=
  let core := ((l.dropWhile pyIsSpace).reverse.dropWhile pyIsSpace).reverse
  match core with
  | '-' :: ds =>
    if (!ds.isEmpty) && ds.all isDigitCh then some (-(natOfDigits ds : Int)) else none
  | '+' :: ds =>
    if (!ds.isEmpty) && ds.all isDigitCh then some ((natOfDigits ds : Int)) else none
  | ds =>
    if (!ds.isEmpty) && ds.all isDigitCh then some ((natOfDigits ds : Int)) else none

/-! ### SymbolCollector.header_line_re
The pattern (0x)?[0-9A-Fa-f]+ then a space then < then (.+) then >: matched
at the start of the line; the second group (the symbol name) is returned.
The greedy .+ makes the name run to the last occurrence of >: on the line. -/

/-- Splits t as (.+)>: with a greedy .+, i.e. at the last occurrence of the
two characters > and : that has at least one character before it. -/
def lastGtColon : List Char → Option (List Char)
  | [] => none
  | c :: rest =>
    match lastGtColon rest with
    | some g => some (c :: g)
    | none =>
      match rest with
      | '>' :: ':' :: _ => some [c]
      | _ => none

/-- The part of the header pattern after the optional 0x: hex digits, one
space, <, then the greedy name group. -/
def headerAfterHex (l : List Char) : Option NameC :=
  let hex := l.takeWhile isHexAny
  let r := l.dropWhile isHexAny
  if hex.isEmpty then none
  else
    match r with
    | ' ' :: '<' :: t => lastGtColon t
    | _ => none

/-- re.match of the header pattern; returns group 2 (the mangled name).
The optional 0x branch is tried first, exactly as the greedy (0x)? does. -/
def headerName (l : NameC) : Option NameC :=
  match l with
  | '0' :: 'x' :: rest =>
    match headerAfterHex rest with
    | some g => some g
    | none => headerAfterHex l
  | _ => headerAfterHex l

/-! ### SymbolCollector.instruction_line_re
Whitespace, hex address, colon, a greedy group of byte pairs (each pair is
optional whitespace followed by two hex digits), at least one whitespace
character, then the instruction text to the end of the line.  The byte-pair
group backtracks: repetitions are dropped from the right until the next
character is whitespace. -/

/-- One repetition of the byte-pair group: optional whitespace then exactly
two hex digits.  Returns the rest of the line after the pair. -/
def byteUnit (l : List Char) : Option (List Char) :=
  match l.dropWhile pyIsSpace with
  | a :: b :: r => if isHexAny a && isHexAny b then some r else none
  | _ => none

theorem dropWhile_length_le (p : α → Bool) (l : List α) :
    (l.dropWhile p).length ≤ l.length := by
  induction l with
  | nil => simp [List.dropWhile]
  | cons a t ih =>
    by_cases hp : p a
    · simp only [List.dropWhile, hp]
      exact Nat.le_succ_of_le ih
    · simp [List.dropWhile, hp]

theorem byteUnit_length {l r : List Char} (h : byteUnit l = some r) :
    r.length < l.length := by
  unfold byteUnit at h
  rcases hd : l.dropWhile pyIsSpace with _ | ⟨a, _ | ⟨b, t⟩⟩ <;> rw [hd] at h
  · exact absurd h (by simp)
  · exact absurd h (by simp)
  · by_cases hab : isHexAny a && isHexAny b
    · simp [hab] at h
      subst h
      have := dropWhile_length_le pyIsSpace l
      rw [hd] at this
      simp at this
      omega
    · simp [hab] at h

/-- Requires at least one whitespace character, then returns the final
(.*) group: the whole remainder after the whitespace run. -/
def wsPlusTail (l : List Char) : Option (List Char) :=
  match l with
  | c :: _ => if pyIsSpace c then some (l.dropWhile pyIsSpace) else none
  | [] => none

/-- Greedy continuation after at least one byte pair: prefer consuming a
further pair; on failure of the deeper alternatives, stop here (regex
backtracking of the + repetition) and demand whitespace. -/
def afterUnits (l : List Char) : Option (List Char) :=
  match h : byteUnit l with
  | some r =>
    match afterUnits r with
    | some g => some g
    | none => wsPlusTail l
  | none => wsPlusTail l
termination_by l.length
decreasing_by exact byteUnit_length h

/-- re.match of the instruction-line pattern; returns group 2 (the
instruction text, which runs to the end of the line). -/
def instrMatch (l : NameC) : Option NameC :=
  let l1 := l.dropWhile pyIsSpace
  let addr := l1.takeWhile isHexAny
  let r1 := l1.dropWhile isHexAny
  if addr.isEmpty then none
  else
    match r1 with
    | ':' :: r2 =>
      match byteUnit r2 with
      | some r3 => afterUnits r3
      | none => none
    | _ => none

/-! ### Binary size regex: whitespace then four whitespace-separated
decimal integer groups -/

def sizeLineMatch (l : NameC) : Option (Nat × Nat × Nat × Nat) :=
  let l1 := l.dropWhile pyIsSpace
  let d1 := l1.takeWhile isDigitCh
  let r1 := l1.dropWhile isDigitCh
  if d1.isEmpty then none
  else
    let w1 := r1.takeWhile pyIsSpace
    let r2 := r1.dropWhile pyIsSpace
    if w1.isEmpty then none
    else
      let d2 := r2.takeWhile isDigitCh
      let r3 := r2.dropWhile isDigitCh
      if d2.isEmpty then none
      else
        let w2 := r3.takeWhile pyIsSpace
        let r4 := r3.dropWhile pyIsSpace
        if w2.isEmpty then none
        else
          let d3 := r4.takeWhile isDigitCh
          let r5 := r4.dropWhile isDigitCh
          if d3.isEmpty then none
          else
            let w3 := r5.takeWhile pyIsSpace
            let r6 := r5.dropWhile pyIsSpace
            if w3.isEmpty then none
            else
              let d4 := r6.takeWhile isDigitCh
              if d4.isEmpty then none
              else some (natOfDigits d1, natOfDigits d2, natOfDigits d3, natOfDigits d4)

/-! ### Binary nm regex: hex address, one whitespace, hex size (group 1),
one whitespace, one word character (group 2), one whitespace, then the
symbol name (group 3, at least one character, to the end of the line) -/

def nmLineMatch (l : NameC) : Option (NameC × Char × NameC) :=
  let a := l.takeWhile isHexAny
  let r1 := l.dropWhile isHexAny
  if a.isEmpty then none
  else
    match r1 with
    | c1 :: r2 =>
      if pyIsSpace c1 then
        let sz := r2.takeWhile isHexAny
        let r3 := r2.dropWhile isHexAny
        if sz.isEmpty then none
        else
          match r3 with
          | c2 :: r4 =>
            if pyIsSpace c2 then
              match r4 with
              | w :: r5 =>
                if isWordCh w then
                  match r5 with
                  | c3 :: rest =>
                    if pyIsSpace c3 && !rest.isEmpty then some (sz, w, rest) else none
                  | [] => none
                else none
              | [] => none
            else none
          | [] => none
      else none
    | [] => none

/-! ### _DebugInformationCollector.header_line_regex
Whitespace, <hex>, whitespace, <hex>, colon, whitespace, the literal
Abbrev Number:, whitespace, a digit group, whitespace, a parenthesised
word group, then anything. -/

/-- Consumes the literal pat at the head of l. -/
def dropLit : List Char → List Char → Option (List Char)
  | [], l => some l
  | p :: ps, c :: cs => if c = p then dropLit ps cs else none
  | _ :: _, [] => none

def debugHeaderMatch (l : NameC) : Option (NameC × NameC) :=
  let l1 := l.dropWhile pyIsSpace
  match l1 with
  | '<' :: r1 =>
    let h1 := r1.takeWhile isHexLower
    let r2 := r1.dropWhile isHexLower
    if h1.isEmpty then none
    else
      match r2 with
      | '>' :: r3 =>
        let r4 := r3.dropWhile pyIsSpace
        match r4 with
        | '<' :: r5 =>
          let h2 := r5.takeWhile isHexLower
          let r6 := r5.dropWhile isHexLower
          if h2.isEmpty then none
          else
            match r6 with
            | '>' :: ':' :: r7 =>
              let w1 := r7.takeWhile pyIsSpace
              let r8 := r7.dropWhile pyIsSpace
              if w1.isEmpty then none
              else
                match dropLit ("Abbrev Number:".toList) r8 with
                | some r9 =>
                  let r10 := r9.dropWhile pyIsSpace
                  let ds := r10.takeWhile isDigitCh
                  let r11 := r10.dropWhile isDigitCh
                  if ds.isEmpty then none
                  else
                    let w2 := r11.takeWhile pyIsSpace
                    let r12 := r11.dropWhile pyIsSpace
                    if w2.isEmpty then none
                    else
                      match r12 with
                      | '(' :: r13 =>
                        let tg := r13.takeWhile isWordCh
                        let r14 := r13.dropWhile isWordCh
                        if tg.isEmpty then none
                        else
                          match r14 with
                          | ')' :: _ => some (ds, tg)
                          | _ => none
                      | _ => none
                | none => none
            | _ => none
        | _ => none
      | _ => none
  | _ => none

/-! ### _DebugInformationCollector.info_line_regex
Whitespace, <hex>, at least one whitespace, then a greedy non-space group,
optional whitespace, a colon, optional whitespace, and the value group
(first character non-space, then everything to the end of the line).  The
greedy non-space group backtracks over the colons it swallowed, longest
group first. -/

/-- The part after a chosen colon: optional whitespace then the value
group; rem is the still-unconsumed tail of the non-space run, rest the
line remainder after that run. -/
def afterColonValue (rem rest : List Char) : Option (List Char) :=
  match (rem ++ rest).dropWhile pyIsSpace with
  | c :: t => some (c :: t)
  | [] => none

/-- Backtracking split of the maximal non-space run n (followed by rest)
as tag-group, colon, value-group; deeper recursion = longer tag group is
preferred, mirroring the greedy non-space repetition. -/
def infoSplitAux : List Char → List Char → Option (List Char × List Char)
  | [], rest =>
    match rest.dropWhile pyIsSpace with
    | ':' :: r => (afterColonValue [] r).map (fun v => ([], v))
    | _ => none
  | c :: n, rest =>
    match infoSplitAux n rest with
    | some (g1, v) => some (c :: g1, v)
    | none =>
      if c = ':' then (afterColonValue n rest).map (fun v => ([], v))
      else none

def infoLineMatch (l : NameC) : Option (NameC × NameC) :=
  let l1 := l.dropWhile pyIsSpace
  match l1 with
  | '<' :: r1 =>
    let h1 := r1.takeWhile isHexLower
    let r2 := r1.dropWhile isHexLower
    if h1.isEmpty then none
    else
      match r2 with
      | '>' :: r3 =>
        let w := r3.takeWhile pyIsSpace
        let r4 := r3.dropWhile pyIsSpace
        if w.isEmpty then none
        else
          let n := r4.takeWhile (fun c => !pyIsSpace c)
          let rest := r4.dropWhile (fun c => !pyIsSpace c)
          if n.isEmpty then none
          else
            match infoSplitAux n rest with
            | some (g1, v) => if g1.isEmpty then none else some (g1, v)
            | none => none
      | _ => none
  | _ => none

/-! ### _DebugInformationCollector.name_regex and source_file_regex
Both are the pattern: anything, at least one whitespace, then a non-space
group.  The greedy prefix selects the last whitespace-to-non-space
transition, so the group is the last whitespace-separated token; a value
without any whitespace before a token does not match. -/

def nameTokenMatch : List Char → Option (List Char)
  | [] => none
  | c :: rest =>
    match nameTokenMatch rest with
    | some g => some g
    | none =>
      if pyIsSpace c then
        match rest.dropWhile pyIsSpace with
        | d :: t => some (d :: t.takeWhile (fun x => !pyIsSpace x))
        | [] => none
      else none

/-! ### SymbolCollector._unifyX86InstructionLine
re.sub of: a greedy prefix, one whitespace, the two characters c3, at
least one whitespace, the literal retq, then the rest of the line; the
replacement keeps everything and shortens retq to ret.  The greedy prefix
means the last position admitting the pattern is rewritten. -/

/-- Tries the whitespace-c3-whitespace-retq pattern at the head of the
line and returns the rewritten remainder on success. -/
def retqHere (l : List Char) : Option (List Char) :=
  match l with
  | w :: 'c' :: '3' :: r =>
    if pyIsSpace w then
      let ws := r.takeWhile pyIsSpace
      let r2 := r.dropWhile pyIsSpace
      if ws.isEmpty then none
      else
        match r2 with
        | 'r' :: 'e' :: 't' :: 'q' :: after =>
          some (w :: 'c' :: '3' :: (ws ++ ('r' :: 'e' :: 't' :: after)))
        | _ => none
    else none
  | _ => none

/-- Rewrites at the last position where the pattern matches (the greedy
prefix of the sub pattern), leaving the line alone if it never matches. -/
def retqRewrite : List Char → Option (List Char)
  | [] => none
  | c :: rest =>
    match retqRewrite rest with
    | some r => some (c :: r)
    | none => retqHere (c :: rest)

def unifyX86InstructionLine (l : NameC) : NameC :=
  match retqRewrite l with
  | some r => r
  | none => l

/-- _unifyInstructionLine: the rewrite applies only when the detected file
format is elf64-x86-64; otherwise the line passes through unchanged. -/
def unifyInstructionLine (file_format : Option NameC) (l : NameC) : NameC :=
  if file_format = some ("elf64-x86-64".toList) then unifyX86InstructionLine l else l

/-! ### Data model -/

/-- A Python runtime value as stored in attributes and used as a dict key:
None, a string, or an int.  Needed because the source-file table is keyed
by the raw header-id string while symbol source ids are parsed ints. -/
inductive PyVal where
  | pnone : PyVal
  | pstr : NameC → PyVal
  | pint : Int → PyVal
deriving DecidableEq

/-- Modelled from the spec: the Symbol capability set used by the core
(the concrete Symbol variants live in elf_diff/symbol.py, which is not
part of the sources): mangled-name identity, display name, demangling
flag, size and kind from the size listing, the ordered instruction
sequence, and the source-location attributes set by debug-info
augmentation. -/
structure Symbol where
  name_mangled : NameC
  name_demangled : NameC
  is_demangled : Bool
  size : Int
  type_ : Option Char
  instructions : List NameC
  source_id : PyVal
  source_line : PyVal
  source_column : PyVal
deriving DecidableEq

def mkSymbol (mangled demangled : NameC) (is_dem : Bool) : Symbol :=
  ⟨mangled, demangled, is_dem, 0, none, [], .pnone, .pnone, .pnone⟩

/-- Modelled from the spec: the instruction-append operation of the Symbol
capability set appends one string to the ordered instruction sequence. -/
def addInstructions (s : Symbol) (line : NameC) : Symbol :=
  { s with instructions := s.instructions ++ [line] }

/-- Modelled from the spec: the finalize/initialize step of a Symbol; it
changes none of the attributes the core reads back. -/
def symbolInit (s : Symbol) : Symbol := s

def SOURCE_CODE_START_TAG : NameC := "...ED_SOURCE_START...".toList

def SOURCE_CODE_END_TAG : NameC := "...ED_SOURCE_END...".toList

def preHighlightSourceCode (src : NameC) : NameC :=
  SOURCE_CODE_START_TAG ++ src ++ SOURCE_CODE_END_TAG

/-- The Mangling object: its mangling attribute is None when no usable
mangling file was configured, otherwise the map read from the file. -/
structure Mangling where
  mangling : Option (List (NameC × NameC))

/-- Mangling.demangle. -/
def manglingDemangle (m : Mangling) (symbol_name : NameC) : NameC × Bool :=
  match m.mangling with
  | none => (symbol_name, false)
  | some mp =>
    match dictLookup symbol_name mp with
    | some d => (d, true)
    | none => (symbol_name, false)

/-- Binary.demangle: the mangling map is consulted first; otherwise the
name passes through, trusted exactly when binutils_work holds. -/
def binaryDemangle (mangling : Option Mangling) (binutils_work : Bool)
    (name : NameC) : NameC × Bool :=
  match mangling with
  | some m =>
    match manglingDemangle m name with
    | (d, true) => (d, true)
    | (_, false) => if binutils_work then (name, true) else (name, false)
  | none => if binutils_work then (name, true) else (name, false)

/-- Binary._isSymbolSelected over the compiled exclusion and selection
regexes, each abstracted as the predicate that re.match induces on the
name. -/
def isSymbolSelected (excl sel : Option (NameC → Bool)) (name : NameC) : Bool :=
  if (match excl with | some e => e name | none => false) then false
  else
    match sel with
    | none => true
    | some s => s name

/-- The exceptions binary.py can raise while constructing a Binary. -/
inductive PyError where
  | noFilename : PyError
  | fileNotFound : PyError
  | undecipherableInfoLine : NameC → PyError
  | undecipherableSourceFile : PyError
  | valueErrorInt : NameC → PyError
  | attributeErrorNoneGroup : PyError
deriving DecidableEq

/-! ### Binary._determineSymbolSizes -/

structure SizeInfo where
  text_size : Nat
  data_size : Nat
  bss_size : Nat
  overall_size : Nat
  progmem_size : Nat
  static_ram_size : Nat
  binutils_work : Bool
  warned : Bool
deriving DecidableEq

/-- The loop over the size output: the break makes the first matching line
win. -/
def firstSizeMatch : List NameC → Option (Nat × Nat × Nat × Nat)
  | [] => none
  | l :: ls =>
    match sizeLineMatch l with
    | some r => some r
    | none => firstSizeMatch ls

/-- Binary._determineSymbolSizes: fields start at zero and binutils_work
at true; a missing match flips binutils_work and warns without aborting. -/
def determineSymbolSizes (size_output : List NameC) : SizeInfo :=
  match firstSizeMatch size_output with
  | some (t, d, b, o) =>
    { text_size := t, data_size := d, bss_size := b, overall_size := o,
      progmem_size := t + d, static_ram_size := d + b,
      binutils_work := true, warned := false }
  | none =>
    { text_size := 0, data_size := 0, bss_size := 0, overall_size := 0,
      progmem_size := 0, static_ram_size := 0,
      binutils_work := false, warned := true }

/-! ### Binary._gatherSymbolProperties -/

structure PropsConfig where
  excl : Option (NameC → Bool)
  sel : Option (NameC → Bool)
  mangling : Option Mangling
  binutils_work : Bool

structure PropsState where
  symbols : List (NameC × Symbol)
  num_symbols_dropped : Nat

/-- One zipped pair of nm lines.  A mangled line that does not match is
skipped; a matching mangled line with a non-matching demangled partner
crashes (group on None); int() of the size group can also raise. -/
def propsLinePair (cfg : PropsConfig) (st : PropsState) (lm ld : NameC) :
    Except PyError PropsState :=
  match nmLineMatch lm with
  | none => .ok st
  | some (sizeStr, kindC, nameM) =>
    match nmLineMatch ld with
    | none => .error .attributeErrorNoneGroup
    | some (_, _, nameD) =>
      let (nameP, isDem) := binaryDemangle cfg.mangling cfg.binutils_work nameD
      if dictContains nameM st.symbols then
        match pyInt sizeStr with
        | some v =>
          .ok { st with
                symbols := dictUpdate nameM
                  (fun s => { s with size := v, type_ := some kindC }) st.symbols }
        | none => .error (.valueErrorInt sizeStr)
      else
        if isSymbolSelected cfg.excl cfg.sel nameP then
          match pyInt sizeStr with
          | some v =>
            .ok { st with
                  symbols := dictInsert nameM
                    (symbolInit { mkSymbol nameM nameP isDem with
                                  size := v, type_ := some kindC }) st.symbols }
          | none => .error (.valueErrorInt sizeStr)
        else .ok { st with num_symbols_dropped := st.num_symbols_dropped + 1 }

def propsFold (cfg : PropsConfig) :
    PropsState → List (NameC × NameC) → Except PyError PropsState
  | st, [] => .ok st
  | st, (lm, ld) :: t =>
    match propsLinePair cfg st lm ld with
    | .ok st1 => propsFold cfg st1 t
    | .error e => .error e

/-- Binary._gatherSymbolProperties: the two nm outputs are zipped line by
line and folded over the (empty, after the counter reset) symbol table. -/
def gatherSymbolProperties (cfg : PropsConfig)
    (nm_mangled nm_demangled : List NameC) : Except PyError PropsState :=
  propsFold cfg ⟨[], 0⟩ (List.zip nm_mangled nm_demangled)

/-! ### SymbolCollector and Binary._gatherSymbolInstructions -/

/-- The collector state: the symbol dict is carried here because the
current symbol is an alias into it, so appending instructions mutates the
dict entry; cur_symbol holds the key of the aliased symbol and submitted
the keys of the symbols appended to the collector list. -/
structure CollectorState where
  symbols : List (NameC × Symbol)
  cur_symbol : Option NameC
  submitted : List NameC
  n_instruction_lines : Nat
deriving DecidableEq

/-- SymbolCollector._submitSymbol. -/
def submitSymbol (st : CollectorState) : CollectorState :=
  match st.cur_symbol with
  | some k => { st with submitted := st.submitted ++ [k], cur_symbol := none }
  | none => st

/-- SymbolCollector._checkSymbolHeaderLine: returns whether the line is a
header line together with the state after processing it. -/
def checkSymbolHeaderLine (st : CollectorState) (line : NameC) :
    Bool × CollectorState :=
  match headerName line with
  | some n =>
    let st1 := if st.cur_symbol.isSome then submitSymbol st else st
    let st2 := if dictContains n st1.symbols then { st1 with cur_symbol := some n } else st1
    (true, st2)
  | none => (false, st)

/-- One iteration of SymbolCollector._gatherSymbolInstructions. -/
def collectLine (ff : Option NameC) (st : CollectorState) (line : NameC) :
    CollectorState :=
  let unified := unifyInstructionLine ff line
  let hs := checkSymbolHeaderLine st unified
  if hs.1 then hs.2
  else
    let st1 := hs.2
    let m := instrMatch unified
    let st2 :=
      if m.isSome then { st1 with n_instruction_lines := st1.n_instruction_lines + 1 }
      else st1
    match st2.cur_symbol with
    | some k =>
      match m with
      | some instr =>
        { st2 with symbols := dictUpdate k (fun s => addInstructions s instr) st2.symbols }
      | none =>
        if (!unified.isEmpty) && !unified.all pyIsSpace then
          { st2 with
            symbols := dictUpdate k
              (fun s => addInstructions s (preHighlightSourceCode unified)) st2.symbols }
        else st2
    | none => st2

/-- The collector loop with its final submit of a pending symbol. -/
def gatherCollect (ff : Option NameC) (st : CollectorState) (lines : List NameC) :
    CollectorState :=
  let st1 := lines.foldl (collectLine ff) st
  if st1.cur_symbol.isSome then submitSymbol st1 else st1

structure DisasmResult where
  symbols : List (NameC × Symbol)
  instructions_available : Bool
  n_instruction_lines : Nat
  warned : Bool
deriving DecidableEq

/-- Binary._gatherSymbolInstructions: run the collector, re-add the
submitted symbols (each already aliased in the dict, so this re-inserts
the stored object under its own key), set instructions_available from the
number of collected symbols, and warn when no instruction line was
recognized. -/
def gatherSymbolInstructions (ff : Option NameC) (symbols : List (NameC × Symbol))
    (lines : List NameC) : DisasmResult :=
  let st := gatherCollect ff ⟨symbols, none, [], 0⟩ lines
  let finalSyms := st.submitted.foldl
    (fun d k =>
      match dictLookup k d with
      | some s => dictInsert k (symbolInit s) d
      | none => d) st.symbols
  { symbols := finalSyms,
    instructions_available := decide (0 < st.submitted.length),
    n_instruction_lines := st.n_instruction_lines,
    warned := decide (st.n_instruction_lines = 0) }

/-! ### Binary._DebugInformationCollector -/

structure SourceFileR where
  filename : NameC
  id_ : PyVal
deriving DecidableEq

structure DebugState where
  symbols : List (NameC × Symbol)
  source_files : List (PyVal × SourceFileR)
  header_id : Option NameC
  header_tag : Option NameC
  name_mangled : Option NameC
  src_id : PyVal
  src_line : PyVal
  src_column : PyVal
deriving DecidableEq

/-- _flushSymbolInfo: copy the pending source location onto an existing
symbol matched by mangled name, then clear the pending fields. -/
def flushSymbolInfo (st : DebugState) : DebugState :=
  let st1 :=
    match st.name_mangled with
    | some n =>
      if dictContains n st.symbols then
        { st with
          symbols := dictUpdate n
            (fun s => { s with source_id := st.src_id, source_line := st.src_line,
                               source_column := st.src_column }) st.symbols }
      else st
    | none => st
  { st1 with name_mangled := none, src_id := .pnone, src_line := .pnone,
             src_column := .pnone }

/-- One line of parseReadelfOutput. -/
def debugLineStep (st : DebugState) (line : NameC) : Except PyError DebugState :=
  match debugHeaderMatch line with
  | some (hid, htag) =>
    .ok (flushSymbolInfo { st with header_id := some hid, header_tag := some htag })
  | none =>
    match infoLineMatch line with
    | some (tag, add_info) =>
      if tag = "DW_AT_linkage_name".toList then
        match nameTokenMatch add_info with
        | none => .error (.undecipherableInfoLine line)
        | some n => .ok { st with name_mangled := some n }
      else if tag = "DW_AT_decl_file".toList then
        match pyInt add_info with
        | some v => .ok { st with src_id := .pint v }
        | none => .error (.valueErrorInt add_info)
      else if tag = "DW_AT_decl_line".toList then
        match pyInt add_info with
        | some v => .ok { st with src_line := .pint v }
        | none => .error (.valueErrorInt add_info)
      else if tag = "DW_AT_decl_column".toList then
        match pyInt add_info with
        | some v => .ok { st with src_column := .pint v }
        | none => .error (.valueErrorInt add_info)
      else if tag = "DW_AT_name".toList then
        if st.header_tag = some ("DW_TAG_compile_unit".toList) then
          match nameTokenMatch add_info with
          | none => .error .undecipherableSourceFile
          | some fn =>
            let key := match st.header_id with
              | some h => PyVal.pstr h
              | none => PyVal.pnone
            .ok { st with source_files := dictInsert key ⟨fn, key⟩ st.source_files }
        else .ok st
      else .ok st
    | none => .ok st

/-- parseReadelfOutput: fold the lines, flushing once more at the end. -/
def parseReadelfOutput (st : DebugState) : List NameC → Except PyError DebugState
  | [] => .ok (flushSymbolInfo st)
  | l :: ls =>
    match debugLineStep st l with
    | .ok st1 => parseReadelfOutput st1 ls
    | .error e => .error e

/-! ### Binary construction -/

/-- The decoded standard output of each external tool, supplied to the
model in place of the subprocess invocations (already split into lines). -/
structure ToolOutputs where
  size_output : List NameC
  nm_mangled : List NameC
  nm_demangled : List NameC
  disassembly : List NameC
  readelf : List NameC

structure BinaryState where
  sizes : SizeInfo
  symbols : List (NameC × Symbol)
  source_files : List (PyVal × SourceFileR)
  num_symbols_dropped : Nat
  instructions_available : Bool

/-- _initSymbols: the final pass calls the finalize step on every symbol
(the sorted iteration order is irrelevant to the resulting mapping). -/
def initSymbols (d : List (NameC × Symbol)) : List (NameC × Symbol) :=
  d.map (fun kv => (kv.1, symbolInit kv.2))

/-- Binary._parseSymbols: sizes, then properties, then disassembly, then
debug info, then the finalize pass, with exceptions propagating out.  The
file format is the (already detected) architecture token. -/
def parseSymbolsPipeline (excl sel : Option (NameC → Bool))
    (mangling : Option Mangling) (ff : Option NameC) (outs : ToolOutputs) :
    Except PyError BinaryState :=
  let szinfo := determineSymbolSizes outs.size_output
  let cfg : PropsConfig := ⟨excl, sel, mangling, szinfo.binutils_work⟩
  match gatherSymbolProperties cfg outs.nm_mangled outs.nm_demangled with
  | .error e => .error e
  | .ok pst =>
    let dres := gatherSymbolInstructions ff pst.symbols outs.disassembly
    match parseReadelfOutput
        ⟨dres.symbols, [], none, none, none, .pnone, .pnone, .pnone⟩ outs.readelf with
    | .error e => .error e
    | .ok dst =>
      .ok { sizes := szinfo, symbols := initSymbols dst.symbols,
            source_files := dst.source_files,
            num_symbols_dropped := pst.num_symbols_dropped,
            instructions_available := dres.instructions_available }

/-- Binary.__init__: the filename guards run before any tool output is
inspected; isfile abstracts os.path.isfile. -/
def binaryNew (isfile : NameC → Bool) (filename : NameC)
    (excl sel : Option (NameC → Bool)) (mangling : Option Mangling)
    (ff : Option NameC) (outs : ToolOutputs) : Except PyError BinaryState :=
  if filename.isEmpty then .error .noFilename
  else if !isfile filename then .error .fileNotFound
  else parseSymbolsPipeline excl sel mangling ff outs

/-! ### Library lemmas about the dict model -/

theorem dictLookup_insert [DecidableEq α] (k k' : α) (v : β) (d : List (α × β)) :
    dictLookup k' (dictInsert k v d) =
      if k = k' then some v else dictLookup k' d := by
  induction d with
  | nil => by_cases h : k = k' <;> simp [dictInsert, dictLookup, h]
  | cons kv t ih =>
    obtain ⟨k0, v0⟩ := kv
    by_cases h0 : k0 = k
    · subst h0
      by_cases h1 : k0 = k' <;> simp [dictInsert, dictLookup, h1]
    · by_cases h1 : k0 = k'
      · subst h1
        have : ¬ k = k0 := fun h => h0 h.symm
        simp [dictInsert, dictLookup, h0, this]
      · simp [dictInsert, dictLookup, h0, h1, ih]

theorem dictLookup_update [DecidableEq α] (k k' : α) (f : β → β) (d : List (α × β)) :
    dictLookup k' (dictUpdate k f d) =
      if k = k' then (dictLookup k d).map f else dictLookup k' d := by
  induction d with
  | nil => by_cases h : k = k' <;> simp [dictUpdate, dictLookup, h]
  | cons kv t ih =>
    obtain ⟨k0, v0⟩ := kv
    by_cases h0 : k0 = k
    · subst h0
      by_cases h1 : k0 = k' <;> simp [dictUpdate, dictLookup, h1]
    · by_cases h1 : k0 = k'
      · subst h1
        have : ¬ k = k0 := fun h => h0 h.symm
        simp [dictUpdate, dictLookup, h0, this]
      · simp [dictUpdate, dictLookup, h0, h1, ih]

theorem dictKeys_update [DecidableEq α] (k : α) (f : β → β) (d : List (α × β)) :
    dictKeys (dictUpdate k f d) = dictKeys d := by
  induction d with
  | nil => rfl
  | cons kv t ih =>
    obtain ⟨k0, v0⟩ := kv
    by_cases h0 : k0 = k <;> simp [dictUpdate, dictKeys, h0] <;> simpa [dictKeys] using ih

theorem dictContains_iff [DecidableEq α] (k : α) (d : List (α × β)) :
    dictContains k d = true ↔ k ∈ dictKeys d := by
  induction d with
  | nil => simp [dictContains, dictLookup, dictKeys]
  | cons kv t ih =>
    obtain ⟨k0, v0⟩ := kv
    by_cases h0 : k0 = k
    · subst h0
      simp [dictContains, dictLookup, dictKeys]
    · have : ¬ k = k0 := fun h => h0 h.symm
      simp [dictContains, dictLookup, dictKeys, h0, this] at ih ⊢
      exact ih

theorem dictKeys_insert [DecidableEq α] (k : α) (v : β) (d : List (α × β)) :
    dictKeys (dictInsert k v d) =
      if dictContains k d then dictKeys d else dictKeys d ++ [k] := by
  induction d with
  | nil => simp [dictInsert, dictKeys, dictContains, dictLookup]
  | cons kv t ih =>
    obtain ⟨k0, v0⟩ := kv
    by_cases h0 : k0 = k
    · subst h0
      simp [dictInsert, dictKeys, dictContains, dictLookup]
    · have h1 : dictInsert k v ((k0, v0) :: t) = (k0, v0) :: dictInsert k v t := by
        simp [dictInsert, h0]
      have h2 : dictContains k ((k0, v0) :: t) = dictContains k t := by
        simp [dictContains, dictLookup, h0]
      rw [h1, h2]
      show k0 :: dictKeys (dictInsert k v t) = _
      rw [ih]
      by_cases hc : dictContains k t <;> simp [hc, dictKeys]

theorem dictKeys_insert_nodup [DecidableEq α] (k : α) (v : β) (d : List (α × β))
    (h : (dictKeys d).Nodup) : (dictKeys (dictInsert k v d)).Nodup := by
  rw [dictKeys_insert]
  by_cases hc : dictContains k d
  · simpa [hc]
  · have hk : k ∉ dictKeys d := fun hm => hc ((dictContains_iff k d).mpr hm)
    simp [hc, List.nodup_append, h, hk]

theorem dictKeys_mem_insert [DecidableEq α] (k k' : α) (v : β) (d : List (α × β)) :
    k' ∈ dictKeys (dictInsert k v d) ↔ k' ∈ dictKeys d ∨ k' = k := by
  rw [dictKeys_insert]
  by_cases hc : dictContains k d
  · simp only [hc, if_true]
    constructor
    · exact fun h => Or.inl h
    · rintro (h | h)
      · exact h
      · subst h
        exact (dictContains_iff k' d).mp hc
  · simp [hc]

/-! ### Claim C3: the demangling priority chain -/

/-- The configured-and-contains test of the priority chain: some name
exactly when a Mangling object is present, its map was loaded, and the
map contains the queried name. -/
def manglingMapHit (mangling : Option Mangling) (name : NameC) : Option NameC :=
  match mangling with
  | some m =>
    match m.mangling with
    | some mp => dictLookup name mp
    | none => none
  | none => none

/-- C3: binaryDemangle follows the three-step priority chain: a configured
mangling map containing the name wins and marks the result demangled;
otherwise with binutils_work (size extraction succeeded) the candidate is
returned unchanged as demangled; otherwise it is returned unchanged as not
demangled. -/
theorem c3_demangle_priority_chain (mangling : Option Mangling) (bw : Bool)
    (name : NameC) :
    (∀ d, manglingMapHit mangling name = some d →
      binaryDemangle mangling bw name = (d, true)) ∧
    (manglingMapHit mangling name = none → bw = true →
      binaryDemangle mangling bw name = (name, true)) ∧
    (manglingMapHit mangling name = none → bw = false →
      binaryDemangle mangling bw name = (name, false)) := by
  refine ⟨?_, ?_, ?_⟩
  · intro d hd
    match mangling with
    | none => simp [manglingMapHit] at hd
    | some m =>
      match hm : m.mangling with
      | none => simp [manglingMapHit, hm] at hd
      | some mp =>
        simp [manglingMapHit, hm] at hd
        simp [binaryDemangle, manglingDemangle, hm, hd]
  · intro hn hbw
    subst hbw
    match mangling with
    | none => simp [binaryDemangle]
    | some m =>
      match hm : m.mangling with
      | none => simp [binaryDemangle, manglingDemangle, hm]
      | some mp =>
        simp [manglingMapHit, hm] at hn
        simp [binaryDemangle, manglingDemangle, hm, hn]
  · intro hn hbw
    subst hbw
    match mangling with
    | none => simp [binaryDemangle]
    | some m =>
      match hm : m.mangling with
      | none => simp [binaryDemangle, manglingDemangle, hm]
      | some mp =>
        simp [manglingMapHit, hm] at hn
        simp [binaryDemangle, manglingDemangle, hm, hn]

/-- Witness for C3 at a concrete map, including the fall-through case. -/
theorem c3_demangle_priority_chain_witness :
    manglingMapHit (some ⟨some [("_Z3foov".toList, "foo()".toList)]⟩)
      ("_Z3foov".toList) = some ("foo()".toList) ∧
    binaryDemangle (some ⟨some [("_Z3foov".toList, "foo()".toList)]⟩) false
      ("_Z3foov".toList) = ("foo()".toList, true) :=
  ⟨by decide,
   (c3_demangle_priority_chain
      (some ⟨some [("_Z3foov".toList, "foo()".toList)]⟩) false
      ("_Z3foov".toList)).1 ("foo()".toList) (by decide)⟩

/-! ### Claim C4: the symbol selection filter -/

/-- Whether a configured exclusion pattern matches the name. -/
def excludedBy (excl : Option (NameC → Bool)) (name : NameC) : Bool :=
  match excl with
  | some e => e name
  | none => false

/-- C4: exclusion strictly dominates inclusion; with no inclusion pattern
every non-excluded name is accepted; with an inclusion pattern exactly the
non-excluded matching names are accepted. -/
theorem c4_selection_filter (excl sel : Option (NameC → Bool)) (name : NameC) :
    (excludedBy excl name = true → isSymbolSelected excl sel name = false) ∧
    (sel = none →
      (isSymbolSelected excl sel name = true ↔ excludedBy excl name = false)) ∧
    (∀ p, sel = some p →
      (isSymbolSelected excl sel name = true ↔
        (excludedBy excl name = false ∧ p name = true))) := by
  refine ⟨?_, ?_, ?_⟩
  · intro hx
    match excl with
    | some e =>
      simp [excludedBy] at hx
      simp [isSymbolSelected, hx]
    | none => simp [excludedBy] at hx
  · intro hs
    subst hs
    match excl with
    | some e =>
      by_cases he : e name <;> simp [isSymbolSelected, excludedBy, he]
    | none => simp [isSymbolSelected, excludedBy]
  · intro p hs
    subst hs
    match excl with
    | some e =>
      by_cases he : e name <;> simp [isSymbolSelected, excludedBy, he]
    | none => simp [isSymbolSelected, excludedBy]

/-- Witness for C4: a name matching both patterns is rejected. -/
theorem c4_selection_filter_witness :
    excludedBy (some (fun n => decide (n = "both".toList))) ("both".toList) = true ∧
    isSymbolSelected (some (fun n => decide (n = "both".toList)))
      (some (fun _ => true)) ("both".toList) = false :=
  ⟨by decide,
   (c4_selection_filter (some (fun n => decide (n = "both".toList)))
      (some (fun _ => true)) ("both".toList)).1 (by decide)⟩

/-! ### Claim C5: the size extractor -/

theorem firstSizeMatch_of_first {pre : List NameC} (l : NameC) (post : List NameC)
    (r : Nat × Nat × Nat × Nat) (hpre : ∀ x ∈ pre, sizeLineMatch x = none)
    (hl : sizeLineMatch l = some r) :
    firstSizeMatch (pre ++ l :: post) = some r := by
  induction pre with
  | nil => simp [firstSizeMatch, hl]
  | cons p t ih =>
    have hp : sizeLineMatch p = none := hpre p (by simp)
    have ht : ∀ x ∈ t, sizeLineMatch x = none := fun x hx => hpre x (by simp [hx])
    simp [firstSizeMatch, hp, ih ht]

theorem firstSizeMatch_of_none {lines : List NameC}
    (h : ∀ x ∈ lines, sizeLineMatch x = none) : firstSizeMatch lines = none := by
  induction lines with
  | nil => rfl
  | cons p t ih =>
    have hp : sizeLineMatch p = none := h p (by simp)
    have ht : ∀ x ∈ t, sizeLineMatch x = none := fun x hx => h x (by simp [hx])
    simp [firstSizeMatch, hp, ih ht]

/-- C5: the first line matching four whitespace-separated unsigned integers
is accepted as (text, data, bss, overall) with progmem_size exactly
text + data and static_ram_size exactly data + bss; if no line matches,
binutils_work becomes false with a warning and the (total) extraction
still returns. -/
theorem c5_size_extractor (lines pre post : List NameC) (l : NameC)
    (t d b o : Nat) :
    (lines = pre ++ l :: post → (∀ x ∈ pre, sizeLineMatch x = none) →
      sizeLineMatch l = some (t, d, b, o) →
      determineSymbolSizes lines = ⟨t, d, b, o, t + d, d + b, true, false⟩) ∧
    ((∀ x ∈ lines, sizeLineMatch x = none) →
      determineSymbolSizes lines = ⟨0, 0, 0, 0, 0, 0, false, true⟩) := by
  constructor
  · intro hsplit hpre hl
    subst hsplit
    rw [determineSymbolSizes, firstSizeMatch_of_first l post (t, d, b, o) hpre hl]
  · intro hall
    rw [determineSymbolSizes, firstSizeMatch_of_none hall]

/-- Witness for C5: the size-summary line of Scenario A. -/
theorem c5_size_extractor_witness :
    sizeLineMatch ("100 50 20 170".toList) = some (100, 50, 20, 170) ∧
    determineSymbolSizes [("100 50 20 170".toList)] =
      ⟨100, 50, 20, 170, 150, 70, true, false⟩ :=
  ⟨by decide,
   (c5_size_extractor [("100 50 20 170".toList)] [] [] ("100 50 20 170".toList)
      100 50 20 170).1 rfl (by simp) (by decide)⟩

/-! ### Claim C8: the construction guards -/

/-- C8: an empty filename or a file that does not exist makes construction
fail immediately; the failure is independent of every tool output, so no
tool result is consulted and no symbol or source-file state arises. -/
theorem c8_construction_guard (isfile : NameC → Bool) (filename : NameC)
    (excl sel : Option (NameC → Bool)) (mangling : Option Mangling)
    (ff : Option NameC) (outs outs2 : ToolOutputs) :
    (filename = [] →
      binaryNew isfile filename excl sel mangling ff outs = .error .noFilename) ∧
    (filename ≠ [] → isfile filename = false →
      binaryNew isfile filename excl sel mangling ff outs = .error .fileNotFound) ∧
    ((filename = [] ∨ isfile filename = false) →
      binaryNew isfile filename excl sel mangling ff outs =
        binaryNew isfile filename excl sel mangling ff outs2) := by
  refine ⟨?_, ?_, ?_⟩
  · intro h
    subst h
    simp [binaryNew]
  · intro hne hf
    have : ¬ filename.isEmpty := by
      cases filename with
      | nil => exact absurd rfl hne
      | cons c t => simp [List.isEmpty]
    simp [binaryNew, this, hf]
  · rintro (h | h)
    · subst h
      simp [binaryNew]
    · by_cases he : filename.isEmpty
      · simp [binaryNew, he]
      · simp [binaryNew, he, h]

/-- Witness for C8: a missing file aborts construction for any outputs. -/
theorem c8_construction_guard_witness :
    ("missing.elf".toList ≠ ([] : NameC)) ∧
    binaryNew (fun _ => false) ("missing.elf".toList) none none none none
      ⟨[], [], [], [], []⟩ = .error .fileNotFound :=
  ⟨by decide,
   (c8_construction_guard (fun _ => false) ("missing.elf".toList) none none none
      none ⟨[], [], [], [], []⟩ ⟨[], [], [], [], []⟩).2.1 (by decide) rfl⟩

/-! ### Claim C6: architecture normalization of retq -/

theorem retqRewrite_append (pre : NameC) :
    retqRewrite (pre ++ ("\tc3\tretq".toList)) =
      some (pre ++ ("\tc3\tret".toList)) := by
  induction pre with
  | nil => decide
  | cons c t ih =>
    rw [List.cons_append, List.cons_append]
    show (match retqRewrite (t ++ ("\tc3\tretq".toList)) with
      | some r => some (c :: r)
      | none => retqHere (c :: (t ++ ("\tc3\tretq".toList)))) = _
    rw [ih]

/-- C6: under the elf64-x86-64 file format an instruction line whose byte
field is the single byte c3 and whose mnemonic is retq is rewritten so the
mnemonic reads ret; under any other detected format, or none, every line
passes through the normalization unchanged. -/
theorem c6_unify_x86 (ff : Option NameC) (line pre : NameC) :
    (ff ≠ some ("elf64-x86-64".toList) → unifyInstructionLine ff line = line) ∧
    (unifyInstructionLine (some ("elf64-x86-64".toList))
        (pre ++ ("\tc3\tretq".toList)) = pre ++ ("\tc3\tret".toList)) := by
  constructor
  · intro h
    unfold unifyInstructionLine
    rw [if_neg h]
  · unfold unifyInstructionLine
    rw [if_pos rfl]
    unfold unifyX86InstructionLine
    rw [retqRewrite_append]

/-- Witness for C6: Scenario C line under another architecture, plus the
rewrite under the 64-bit one. -/
theorem c6_unify_x86_witness :
    ((some ("elf32-i386".toList) : Option NameC) ≠ some ("elf64-x86-64".toList)) ∧
    unifyInstructionLine (some ("elf32-i386".toList)) ("1000:\tc3\tretq".toList) =
      ("1000:\tc3\tretq".toList) ∧
    unifyInstructionLine (some ("elf64-x86-64".toList)) ("1000:\tc3\tretq".toList) =
      ("1000:\tc3\tret".toList) :=
  ⟨by decide,
   (c6_unify_x86 (some ("elf32-i386".toList)) ("1000:\tc3\tretq".toList)
      ("1000:".toList)).1 (by decide),
   (c6_unify_x86 (some ("elf32-i386".toList)) ("1000:\tc3\tretq".toList)
      ("1000:".toList)).2⟩

/-! ### Claim C2: symbol keys are never extended after property extraction -/

theorem submitSymbol_symbols (st : CollectorState) :
    (submitSymbol st).symbols = st.symbols := by
  unfold submitSymbol
  cases st.cur_symbol <;> rfl

theorem checkSymbolHeaderLine_symbols (st : CollectorState) (line : NameC) :
    (checkSymbolHeaderLine st line).2.symbols = st.symbols := by
  unfold checkSymbolHeaderLine
  cases h : headerName line with
  | none => rfl
  | some n =>
    set st1 := if st.cur_symbol.isSome then submitSymbol st else st with hst1
    have h1 : st1.symbols = st.symbols := by
      by_cases hc : st.cur_symbol.isSome <;> simp [hst1, hc, submitSymbol_symbols]
    by_cases hd : dictContains n st.symbols <;> simp [h1, hd]

theorem collectLine_keys (ff : Option NameC) (st : CollectorState) (line : NameC) :
    dictKeys (collectLine ff st line).symbols = dictKeys st.symbols := by
  unfold collectLine
  set u := unifyInstructionLine ff line with hu
  have hsym := checkSymbolHeaderLine_symbols st u
  by_cases h1 : (checkSymbolHeaderLine st u).1
  · simp [h1, hsym]
  · simp only [h1, if_false, Bool.false_eq_true]
    set st1 := (checkSymbolHeaderLine st u).2 with hst1
    set st2 := if (instrMatch u).isSome then
        { st1 with n_instruction_lines := st1.n_instruction_lines + 1 } else st1 with hst2
    have h2 : st2.symbols = st.symbols := by
      by_cases hm : (instrMatch u).isSome <;> simp [hst2, hm, hsym]
    cases hcur : st2.cur_symbol with
    | none => simp [hcur, h2]
    | some k =>
      cases hm : instrMatch u with
      | some instr => simp [hcur, hm, dictKeys_update, h2]
      | none =>
        by_cases hne : (!u.isEmpty) && !u.all pyIsSpace <;>
          simp [hcur, hm, hne, dictKeys_update, h2]

theorem foldCollect_keys (ff : Option NameC) (lines : List NameC) :
    ∀ st : CollectorState,
      dictKeys (lines.foldl (collectLine ff) st).symbols = dictKeys st.symbols := by
  induction lines with
  | nil => intro st; rfl
  | cons l t ih =>
    intro st
    rw [List.foldl_cons, ih (collectLine ff st l), collectLine_keys]

theorem gatherCollect_keys (ff : Option NameC) (st : CollectorState)
    (lines : List NameC) :
    dictKeys (gatherCollect ff st lines).symbols = dictKeys st.symbols := by
  unfold gatherCollect
  by_cases h : (lines.foldl (collectLine ff) st).cur_symbol.isSome <;>
    simp [h, submitSymbol_symbols, foldCollect_keys]

theorem readdFold_keys (ks : List NameC) :
    ∀ d : List (NameC × Symbol),
      dictKeys (ks.foldl
        (fun d k =>
          match dictLookup k d with
          | some s => dictInsert k (symbolInit s) d
          | none => d) d) = dictKeys d := by
  induction ks with
  | nil => intro d; rfl
  | cons k t ih =>
    intro d
    rw [List.foldl_cons]
    cases h : dictLookup k d with
    | none => simp [h, ih]
    | some s =>
      have hc : dictContains k d = true := by simp [dictContains, h]
      rw [ih]
      simp [dictKeys_insert, hc]

theorem flushSymbolInfo_keys (st : DebugState) :
    dictKeys (flushSymbolInfo st).symbols = dictKeys st.symbols := by
  unfold flushSymbolInfo
  cases h : st.name_mangled with
  | none => rfl
  | some n =>
    by_cases hc : dictContains n st.symbols <;> simp [hc, dictKeys_update]

theorem debugLineStep_keys (st : DebugState) (line : NameC) (st' : DebugState)
    (h : debugLineStep st line = .ok st') :
    dictKeys st'.symbols = dictKeys st.symbols := by
  unfold debugLineStep at h
  repeat' split at h
  all_goals simp only [Except.ok.injEq, reduceCtorEq] at h
  all_goals subst h
  all_goals simp [flushSymbolInfo_keys]

theorem parseReadelfOutput_keys (rlines : List NameC) :
    ∀ st st' : DebugState, parseReadelfOutput st rlines = .ok st' →
      dictKeys st'.symbols = dictKeys st.symbols := by
  induction rlines with
  | nil =>
    intro st st' h
    simp [parseReadelfOutput] at h
    rw [← h, flushSymbolInfo_keys]
  | cons l t ih =>
    intro st st' h
    unfold parseReadelfOutput at h
    cases hs : debugLineStep st l with
    | ok st1 =>
      rw [hs] at h
      rw [ih st1 st' h, debugLineStep_keys st l st1 hs]
    | error e =>
      rw [hs] at h
      exact absurd h (by simp)

/-- C2: the key set of the symbol table is invariant through the
disassembly and debug-info phases; a header naming an unknown symbol
leaves no current symbol (so following instruction lines are dropped),
and debug-info parsing only mutates existing symbols. -/
theorem c2_symbol_keys_never_extended (ff : Option NameC)
    (d : List (NameC × Symbol)) (lines : List NameC) :
    (dictKeys (gatherSymbolInstructions ff d lines).symbols = dictKeys d) ∧
    (∀ st : CollectorState, ∀ line n, headerName line = some n →
      dictContains n st.symbols = false →
      (checkSymbolHeaderLine st line).1 = true ∧
        (checkSymbolHeaderLine st line).2.cur_symbol = none) ∧
    (∀ st : CollectorState, ∀ line, st.cur_symbol = none →
      headerName (unifyInstructionLine ff line) = none →
      (collectLine ff st line).symbols = st.symbols) ∧
    (∀ dst st' : DebugState, ∀ rlines, parseReadelfOutput dst rlines = .ok st' →
      dictKeys st'.symbols = dictKeys dst.symbols) := by
  refine ⟨?_, ?_, ?_, ?_⟩
  · show dictKeys (gatherSymbolInstructions ff d lines).symbols = dictKeys d
    unfold gatherSymbolInstructions
    rw [readdFold_keys, gatherCollect_keys]
  · intro st line n hh hc
    have hsub : (if st.cur_symbol.isSome then submitSymbol st else st).cur_symbol
        = none := by
      cases hcur : st.cur_symbol <;> simp [hcur, submitSymbol]
    have hsym : (if st.cur_symbol.isSome then submitSymbol st else st).symbols
        = st.symbols := by
      by_cases hcur : st.cur_symbol.isSome <;> simp [hcur, submitSymbol_symbols]
    constructor <;> simp [checkSymbolHeaderLine, hh, hsym, hc, hsub]
  · intro st line hcur hh
    have h1 : checkSymbolHeaderLine st (unifyInstructionLine ff line) = (false, st) := by
      simp [checkSymbolHeaderLine, hh]
    unfold collectLine
    dsimp only
    rw [h1]
    dsimp only
    cases hm : instrMatch (unifyInstructionLine ff line) <;> simp [hm, hcur]
  · intro dst st' rlines h
    exact parseReadelfOutput_keys rlines dst st' h

/-- Witness for C2: a header line naming a symbol absent from an empty
table is recognized but selects no current symbol. -/
theorem c2_symbol_keys_never_extended_witness :
    headerName ("0000000000001000 <bar>:".toList) = some ("bar".toList) ∧
    (checkSymbolHeaderLine ⟨[], none, [], 0⟩
      ("0000000000001000 <bar>:".toList)).2.cur_symbol = none :=
  ⟨by decide,
   ((c2_symbol_keys_never_extended none [] []).2.1 ⟨[], none, [], 0⟩
      ("0000000000001000 <bar>:".toList) ("bar".toList) (by decide) (by decide)).2⟩

/-! ### Claim C1: instruction count, warning, and instructions_available -/

/-- C1 fails on the code: instructions_available is computed from the
number of collected symbols, not from the instruction-line total.  A
disassembly consisting of a single header line for a known symbol yields a
zero instruction-line total (so the warning fires) while
instructions_available is nevertheless true. -/
theorem c1_availability_counterexample :
    (gatherSymbolInstructions none
      [(("_Z3foov".toList), mkSymbol ("_Z3foov".toList) ("foo()".toList) true)]
      [("0000000000001000 <_Z3foov>:".toList)]).n_instruction_lines = 0 ∧
    (gatherSymbolInstructions none
      [(("_Z3foov".toList), mkSymbol ("_Z3foov".toList) ("foo()".toList) true)]
      [("0000000000001000 <_Z3foov>:".toList)]).warned = true ∧
    (gatherSymbolInstructions none
      [(("_Z3foov".toList), mkSymbol ("_Z3foov".toList) ("foo()".toList) true)]
      [("0000000000001000 <_Z3foov>:".toList)]).instructions_available = true := by
  decide

/-- The number of lines of the output that are counted as instruction
lines: non-header lines whose unified form matches the instruction
pattern. -/
def countInstrLines (ff : Option NameC) (lines : List NameC) : Nat :=
  (lines.filter (fun l =>
    (headerName (unifyInstructionLine ff l)).isNone
      && (instrMatch (unifyInstructionLine ff l)).isSome)).length

theorem submitSymbol_n (st : CollectorState) :
    (submitSymbol st).n_instruction_lines = st.n_instruction_lines := by
  unfold submitSymbol
  cases st.cur_symbol <;> rfl

theorem submitSymbol_submitted (st : CollectorState) :
    (submitSymbol st).submitted =
      st.submitted ++ (match st.cur_symbol with | some k => [k] | none => []) := by
  unfold submitSymbol
  cases st.cur_symbol <;> simp

theorem checkSymbolHeaderLine_n (st : CollectorState) (line : NameC) :
    (checkSymbolHeaderLine st line).2.n_instruction_lines
      = st.n_instruction_lines := by
  unfold checkSymbolHeaderLine
  cases h : headerName line with
  | none => rfl
  | some n =>
    set st1 := if st.cur_symbol.isSome then submitSymbol st else st with hst1
    have h1 : st1.n_instruction_lines = st.n_instruction_lines := by
      by_cases hc : st.cur_symbol.isSome <;> simp [hst1, hc, submitSymbol_n]
    by_cases hd : dictContains n st1.symbols <;> simp [hd, h1]

theorem collectLine_header (ff : Option NameC) (st : CollectorState) (l : NameC)
    (n : NameC) (hh : headerName (unifyInstructionLine ff l) = some n) :
    collectLine ff st l = (checkSymbolHeaderLine st (unifyInstructionLine ff l)).2 := by
  unfold collectLine
  dsimp only
  have h1 : (checkSymbolHeaderLine st (unifyInstructionLine ff l)).1 = true := by
    simp [checkSymbolHeaderLine, hh]
  rw [h1]
  simp

theorem collectLine_nonheader (ff : Option NameC) (st : CollectorState) (l : NameC)
    (hh : headerName (unifyInstructionLine ff l) = none) :
    (collectLine ff st l).submitted = st.submitted ∧
    (collectLine ff st l).cur_symbol = st.cur_symbol ∧
    (collectLine ff st l).n_instruction_lines = st.n_instruction_lines +
      (if (instrMatch (unifyInstructionLine ff l)).isSome then 1 else 0) := by
  unfold collectLine
  dsimp only
  have hpair : checkSymbolHeaderLine st (unifyInstructionLine ff l) = (false, st) := by
    simp [checkSymbolHeaderLine, hh]
  rw [hpair]
  simp only [Bool.false_eq_true, if_false]
  cases hm : instrMatch (unifyInstructionLine ff l) with
  | some i =>
    cases hc : st.cur_symbol with
    | none => simp [hc]
    | some k => simp [hc]
  | none =>
    cases hc : st.cur_symbol with
    | none => simp [hc]
    | some k =>
      simp only [hc, Option.isSome_none, Bool.false_eq_true, if_false]
      split <;> simp [hc]

theorem collectLine_count (ff : Option NameC) (st : CollectorState) (l : NameC) :
    (collectLine ff st l).n_instruction_lines =
      st.n_instruction_lines +
        (if (headerName (unifyInstructionLine ff l)).isNone
            && (instrMatch (unifyInstructionLine ff l)).isSome then 1 else 0) := by
  cases hh : headerName (unifyInstructionLine ff l) with
  | some n =>
    rw [collectLine_header ff st l n hh, checkSymbolHeaderLine_n]
    simp [hh]
  | none =>
    rw [(collectLine_nonheader ff st l hh).2.2]
    simp [hh]

theorem foldCollect_count (ff : Option NameC) (lines : List NameC) :
    ∀ st : CollectorState,
      (lines.foldl (collectLine ff) st).n_instruction_lines =
        st.n_instruction_lines + countInstrLines ff lines := by
  induction lines with
  | nil => intro st; simp [countInstrLines]
  | cons l t ih =>
    intro st
    rw [List.foldl_cons, ih, collectLine_count]
    by_cases hl : (headerName (unifyInstructionLine ff l)).isNone
        && (instrMatch (unifyInstructionLine ff l)).isSome <;>
      simp [countInstrLines, List.filter, hl] <;> omega

theorem checkSymbolHeaderLine_live (st : CollectorState) (l : NameC) (n : NameC)
    (hh : headerName l = some n) :
    (((checkSymbolHeaderLine st l).2.submitted ≠ [] ∨
        (checkSymbolHeaderLine st l).2.cur_symbol.isSome = true) ↔
      (st.submitted ≠ [] ∨ st.cur_symbol.isSome = true ∨
        n ∈ dictKeys st.symbols)) := by
  unfold checkSymbolHeaderLine
  rw [hh]
  set st1 := if st.cur_symbol.isSome then submitSymbol st else st with hst1
  have hsym : st1.symbols = st.symbols := by
    by_cases hc : st.cur_symbol.isSome <;> simp [hst1, hc, submitSymbol_symbols]
  by_cases hd : dictContains n st.symbols
  · have hmem : n ∈ dictKeys st.symbols := (dictContains_iff n st.symbols).mp hd
    simp [hsym, hd, hmem]
  · have hmem : n ∉ dictKeys st.symbols := fun hm =>
      hd ((dictContains_iff n st.symbols).mpr hm)
    cases hc : st.cur_symbol with
    | none =>
      have h2 : st1 = st := by simp [hst1, hc]
      simp [hsym, hd, h2, hc, hmem]
    | some k =>
      have h2 : st1 = submitSymbol st := by simp [hst1, hc]
      have h3 : st1.submitted = st.submitted ++ [k] := by
        rw [h2, submitSymbol_submitted, hc]
      have h4 : (st1.submitted ≠ []) = True := by
        simp [h3]
      simp [hsym, hd, hc, hmem, h4]

theorem collectLine_live (ff : Option NameC) (st : CollectorState) (l : NameC) :
    ((collectLine ff st l).submitted ≠ [] ∨
        (collectLine ff st l).cur_symbol.isSome = true) ↔
      (st.submitted ≠ [] ∨ st.cur_symbol.isSome = true ∨
        (∃ n, headerName (unifyInstructionLine ff l) = some n ∧
          n ∈ dictKeys st.symbols)) := by
  cases hh : headerName (unifyInstructionLine ff l) with
  | some n =>
    rw [collectLine_header ff st l n hh]
    rw [checkSymbolHeaderLine_live st (unifyInstructionLine ff l) n hh]
    simp [hh]
  | none =>
    rw [(collectLine_nonheader ff st l hh).1, (collectLine_nonheader ff st l hh).2.1]
    simp [hh]

theorem foldCollect_live (ff : Option NameC) (lines : List NameC) :
    ∀ st : CollectorState,
      (((lines.foldl (collectLine ff) st).submitted ≠ [] ∨
          (lines.foldl (collectLine ff) st).cur_symbol.isSome = true) ↔
        (st.submitted ≠ [] ∨ st.cur_symbol.isSome = true ∨
          ∃ l ∈ lines, ∃ n, headerName (unifyInstructionLine ff l) = some n ∧
            n ∈ dictKeys st.symbols)) := by
  induction lines with
  | nil =>
    intro st
    simp
  | cons l t ih =>
    intro st
    rw [List.foldl_cons]
    have hkeys := collectLine_keys ff st l
    have hstep := collectLine_live ff st l
    have hind := ih (collectLine ff st l)
    rw [hkeys] at hind
    rw [hind]
    constructor
    · rintro (h | h | h)
      · rcases hstep.mp (Or.inl h) with h1 | h1 | h1
        · exact Or.inl h1
        · exact Or.inr (Or.inl h1)
        · exact Or.inr (Or.inr ⟨l, by simp, h1⟩)
      · rcases hstep.mp (Or.inr h) with h1 | h1 | h1
        · exact Or.inl h1
        · exact Or.inr (Or.inl h1)
        · exact Or.inr (Or.inr ⟨l, by simp, h1⟩)
      · obtain ⟨x, hx, hn⟩ := h
        exact Or.inr (Or.inr ⟨x, by simp [hx], hn⟩)
    · rintro (h | h | h)
      · rcases hstep.mpr (Or.inl h) with h1 | h1
        · exact Or.inl h1
        · exact Or.inr (Or.inl h1)
      · rcases hstep.mpr (Or.inr (Or.inl h)) with h1 | h1
        · exact Or.inl h1
        · exact Or.inr (Or.inl h1)
      · obtain ⟨x, hx, hn⟩ := h
        rcases List.mem_cons.mp hx with hx1 | hx1
        · subst hx1
          rcases hstep.mpr (Or.inr (Or.inr hn)) with h1 | h1
          · exact Or.inl h1
          · exact Or.inr (Or.inl h1)
        · exact Or.inr (Or.inr ⟨x, hx1, hn⟩)

/-- C1 as amended: the warning is raised exactly when the recognized
instruction-line total is zero (and the result records that total), while
instructions_available is true exactly when some line of the output is a
header line naming a symbol of the table - the two conditions are
independent, contrary to the claim as stated. -/
theorem c1_count_and_availability (ff : Option NameC)
    (d : List (NameC × Symbol)) (lines : List NameC) :
    ((gatherSymbolInstructions ff d lines).n_instruction_lines
        = countInstrLines ff lines) ∧
    ((gatherSymbolInstructions ff d lines).warned = true ↔
        countInstrLines ff lines = 0) ∧
    ((gatherSymbolInstructions ff d lines).instructions_available = true ↔
        ∃ l ∈ lines, ∃ n, headerName (unifyInstructionLine ff l) = some n ∧
          n ∈ dictKeys d) := by
  have hfold := foldCollect_live ff lines ⟨d, none, [], 0⟩
  simp only [List.append_nil] at hfold
  have hcount := foldCollect_count ff lines ⟨d, none, [], 0⟩
  set stf := lines.foldl (collectLine ff) ⟨d, none, [], 0⟩ with hstf
  have hn : (gatherSymbolInstructions ff d lines).n_instruction_lines
      = stf.n_instruction_lines := by
    unfold gatherSymbolInstructions gatherCollect
    by_cases hc : stf.cur_symbol.isSome <;> simp [← hstf, hc, submitSymbol_n]
  have hsubm : (gatherSymbolInstructions ff d lines).instructions_available = true ↔
      (stf.submitted ≠ [] ∨ stf.cur_symbol.isSome = true) := by
    unfold gatherSymbolInstructions gatherCollect
    cases hc : stf.cur_symbol with
    | none =>
      simp [← hstf, hc, List.length_pos]
    | some k =>
      rw [← hstf]
      simp only [hc, Option.isSome_some, if_true]
      rw [submitSymbol_submitted, hc]
      simp
  have hwarn : (gatherSymbolInstructions ff d lines).warned = true ↔
      (gatherSymbolInstructions ff d lines).n_instruction_lines = 0 := by
    unfold gatherSymbolInstructions gatherCollect
    by_cases hc : stf.cur_symbol.isSome <;> simp [← hstf, hc, submitSymbol_n]
  refine ⟨?_, ?_, ?_⟩
  · rw [hn, hcount]
    simp
  · rw [hwarn, hn, hcount]
    simp
  · rw [hsubm, hfold]
    simp

/-! ### Claim C7: fatal parse errors of the debug-info collector -/

/-- Pairs every line with the header tag in force while it is processed
(the tag of the last preceding header line, or the initial one). -/
def annotateHeaderTag (t : Option NameC) : List NameC → List (NameC × Option NameC)
  | [] => []
  | l :: ls =>
    match debugHeaderMatch l with
    | some p => (l, t) :: annotateHeaderTag (some p.2) ls
    | none => (l, t) :: annotateHeaderTag t ls

/-- A line whose linkage-name value, or compile-unit name value, has the
expected token shape (or which cannot reach either raise). -/
def goodShapeLine (lt : NameC × Option NameC) : Bool :=
  match debugHeaderMatch lt.1 with
  | some _ => true
  | none =>
    match infoLineMatch lt.1 with
    | some (tg, v) =>
      if tg = "DW_AT_linkage_name".toList then (nameTokenMatch v).isSome
      else if tg = "DW_AT_name".toList then
        if lt.2 = some ("DW_TAG_compile_unit".toList) then (nameTokenMatch v).isSome
        else true
      else true
    | none => true

/-- Every linkage-name and compile-unit name value of the dump, evaluated
in context, has the expected token shape. -/
def goodShapedDebug (t : Option NameC) (lines : List NameC) : Bool :=
  (annotateHeaderTag t lines).all goodShapeLine

/-- The two token-shape exceptions, as opposed to the int conversion
error. -/
def shapeErr : PyError → Bool
  | .undecipherableInfoLine _ => true
  | .undecipherableSourceFile => true
  | _ => false

theorem goodShapedDebug_cons (t : Option NameC) (l : NameC) (ls : List NameC) :
    goodShapedDebug t (l :: ls) =
      (goodShapeLine (l, t) && goodShapedDebug
        (match debugHeaderMatch l with
          | some p => some p.2
          | none => t) ls) := by
  cases h : debugHeaderMatch l <;>
    simp only [goodShapedDebug, annotateHeaderTag, h, List.all_cons]

theorem flushSymbolInfo_header_tag (st : DebugState) :
    (flushSymbolInfo st).header_tag = st.header_tag := by
  unfold flushSymbolInfo
  cases h : st.name_mangled with
  | none => rfl
  | some n => by_cases hc : dictContains n st.symbols <;> simp [hc]

theorem debugLineStep_header_tag (st : DebugState) (l : NameC) (st1 : DebugState)
    (h : debugLineStep st l = .ok st1) :
    st1.header_tag =
      (match debugHeaderMatch l with
        | some p => some p.2
        | none => st.header_tag) := by
  unfold debugLineStep at h
  repeat' split at h
  all_goals simp only [Except.ok.injEq, reduceCtorEq] at h
  all_goals subst h
  all_goals simp_all [flushSymbolInfo_header_tag]

theorem debugLineStep_shape (st : DebugState) (l : NameC) (e : PyError)
    (hg : goodShapeLine (l, st.header_tag) = true)
    (h : debugLineStep st l = .error e) : shapeErr e = false := by
  unfold debugLineStep at h
  repeat' split at h
  all_goals simp only [Except.error.injEq, reduceCtorEq] at h
  all_goals subst h
  all_goals first
    | rfl
    | (exfalso
       simp_all [goodShapeLine])

theorem parseReadelf_shape (rlines : List NameC) :
    ∀ (st : DebugState) (e : PyError),
      goodShapedDebug st.header_tag rlines = true →
      parseReadelfOutput st rlines = .error e → shapeErr e = false := by
  induction rlines with
  | nil =>
    intro st e hg h
    simp [parseReadelfOutput] at h
  | cons l ls ih =>
    intro st e hg h
    rw [goodShapedDebug_cons] at hg
    have hg1 : goodShapeLine (l, st.header_tag) = true := by
      exact (Bool.and_eq_true_iff.mp hg).1
    have hg2 : goodShapedDebug
        (match debugHeaderMatch l with
          | some p => some p.2
          | none => st.header_tag) ls = true := by
      exact (Bool.and_eq_true_iff.mp hg).2
    unfold parseReadelfOutput at h
    cases hs : debugLineStep st l with
    | error e1 =>
      rw [hs] at h
      simp at h
      subst h
      exact debugLineStep_shape st l _ hg1 hs
    | ok st1 =>
      rw [hs] at h
      have htag := debugLineStep_header_tag st l st1 hs
      rw [← htag] at hg2
      exact ih st1 e hg2 h

theorem debugLineStep_linkage_error (st : DebugState) (line : NameC)
    (tag v : NameC) (hh : debugHeaderMatch line = none)
    (hi : infoLineMatch line = some (tag, v))
    (ht : tag = "DW_AT_linkage_name".toList)
    (hn : nameTokenMatch v = none) :
    debugLineStep st line = .error (.undecipherableInfoLine line) := by
  unfold debugLineStep
  rw [hh, hi, ht]
  simp [hn]

theorem debugLineStep_cu_name_error (st : DebugState) (line : NameC)
    (tag v : NameC) (hcu : st.header_tag = some ("DW_TAG_compile_unit".toList))
    (hh : debugHeaderMatch line = none)
    (hi : infoLineMatch line = some (tag, v))
    (ht : tag = "DW_AT_name".toList)
    (hn : nameTokenMatch v = none) :
    debugLineStep st line = .error .undecipherableSourceFile := by
  unfold debugLineStep
  rw [hh, hi, ht]
  simp [hn, hcu]

/-- C7: a linkage-name value, or a compile-unit name value, without the
expected token shape raises the undecipherable exception as soon as the
line is processed, and the exception propagates out of the whole pipeline;
conversely, on input whose linkage-name and compile-unit name values all
have the token shape, neither of those exceptions is raised (the collector
can still fail, but only with the int conversion error). -/
theorem c7_debug_parse_errors :
    (∀ (st : DebugState) (line : NameC) (rest : List NameC) (tag v : NameC),
      debugHeaderMatch line = none → infoLineMatch line = some (tag, v) →
      tag = "DW_AT_linkage_name".toList → nameTokenMatch v = none →
      parseReadelfOutput st (line :: rest) =
        .error (.undecipherableInfoLine line)) ∧
    (∀ (st : DebugState) (line : NameC) (rest : List NameC) (tag v : NameC),
      st.header_tag = some ("DW_TAG_compile_unit".toList) →
      debugHeaderMatch line = none → infoLineMatch line = some (tag, v) →
      tag = "DW_AT_name".toList → nameTokenMatch v = none →
      parseReadelfOutput st (line :: rest) = .error .undecipherableSourceFile) ∧
    (∀ (st : DebugState) (rlines : List NameC) (e : PyError),
      goodShapedDebug st.header_tag rlines = true →
      parseReadelfOutput st rlines = .error e → shapeErr e = false) ∧
    (∀ (excl sel : Option (NameC → Bool)) (mangling : Option Mangling)
        (ff : Option NameC) (outs : ToolOutputs) (pst : PropsState) (e : PyError),
      gatherSymbolProperties
          ⟨excl, sel, mangling, (determineSymbolSizes outs.size_output).binutils_work⟩
          outs.nm_mangled outs.nm_demangled = .ok pst →
      parseReadelfOutput
          ⟨(gatherSymbolInstructions ff pst.symbols outs.disassembly).symbols,
            [], none, none, none, .pnone, .pnone, .pnone⟩ outs.readelf = .error e →
      parseSymbolsPipeline excl sel mangling ff outs = .error e) := by
  refine ⟨?_, ?_, ?_, ?_⟩
  · intro st line rest tag v hh hi ht hn
    unfold parseReadelfOutput
    rw [debugLineStep_linkage_error st line tag v hh hi ht hn]
  · intro st line rest tag v hcu hh hi ht hn
    unfold parseReadelfOutput
    rw [debugLineStep_cu_name_error st line tag v hcu hh hi ht hn]
  · intro st rlines e hg h
    exact parseReadelf_shape rlines st e hg h
  · intro excl sel mangling ff outs pst e hp hr
    unfold parseSymbolsPipeline
    dsimp only
    rw [hp]
    dsimp only
    rw [hr]

/-- Witness for C7: a linkage-name attribute whose value is a single token
with no whitespace before it fails the token-shape pattern and aborts. -/
theorem c7_debug_parse_errors_witness :
    infoLineMatch (" <2e> DW_AT_linkage_name : _Z3foov".toList) =
      some ("DW_AT_linkage_name".toList, "_Z3foov".toList) ∧
    nameTokenMatch ("_Z3foov".toList) = none ∧
    parseReadelfOutput ⟨[], [], none, none, none, .pnone, .pnone, .pnone⟩
      [(" <2e> DW_AT_linkage_name : _Z3foov".toList)] =
      .error (.undecipherableInfoLine (" <2e> DW_AT_linkage_name : _Z3foov".toList)) :=
  ⟨by decide, by decide,
   c7_debug_parse_errors.1 ⟨[], [], none, none, none, .pnone, .pnone, .pnone⟩
     (" <2e> DW_AT_linkage_name : _Z3foov".toList) []
     ("DW_AT_linkage_name".toList) ("_Z3foov".toList)
     (by decide) (by decide) rfl (by decide)⟩

/-! ### Claim C10: symbol source ids can never match source-file keys -/

/-- A value that is Python None or an int (the only values ever assigned
to the pending source id and hence to a symbol source_id). -/
def intOrNone : PyVal → Bool
  | .pnone => true
  | .pint _ => true
  | .pstr _ => false

/-- A string value (the only kind ever used as a source-file key). -/
def strKey : PyVal → Bool
  | .pstr _ => true
  | _ => false

theorem dictInsert_all [DecidableEq α] (p : α × β → Bool) (k : α) (v : β)
    (d : List (α × β)) (hall : d.all p = true) (hv : p (k, v) = true) :
    (dictInsert k v d).all p = true := by
  induction d with
  | nil => simp [dictInsert, hv]
  | cons kv t ih =>
    obtain ⟨k0, v0⟩ := kv
    simp only [List.all_cons, Bool.and_eq_true] at hall
    by_cases h0 : k0 = k
    · subst h0
      simp [dictInsert, List.all_cons, hv, hall.2]
    · simp [dictInsert, h0, List.all_cons, hall.1, ih hall.2]

theorem dictUpdate_all [DecidableEq α] (p : α × β → Bool) (k : α) (f : β → β)
    (d : List (α × β)) (hall : d.all p = true)
    (hf : ∀ v, p (k, v) = true → p (k, f v) = true) :
    (dictUpdate k f d).all p = true := by
  induction d with
  | nil => simp [dictUpdate]
  | cons kv t ih =>
    obtain ⟨k0, v0⟩ := kv
    simp only [List.all_cons, Bool.and_eq_true] at hall
    by_cases h0 : k0 = k
    · subst h0
      simp [dictUpdate, List.all_cons, hf v0 hall.1, hall.2]
    · simp [dictUpdate, h0, List.all_cons, hall.1, ih hall.2]

theorem dictLookup_all [DecidableEq α] (p : α × β → Bool) (k : α)
    (d : List (α × β)) (v : β) (hall : d.all p = true)
    (h : dictLookup k d = some v) : p (k, v) = true := by
  induction d with
  | nil => simp [dictLookup] at h
  | cons kv t ih =>
    obtain ⟨k0, v0⟩ := kv
    simp only [List.all_cons, Bool.and_eq_true] at hall
    by_cases h0 : k0 = k
    · subst h0
      simp [dictLookup] at h
      subst h
      exact hall.1
    · simp [dictLookup, h0] at h
      exact ih hall.2 h

/-- The debug-collector invariant: every symbol source id is None or an
int, every source-file key is a string, the pending source id is None or
an int, and a recorded header tag comes with a recorded header id. -/
def debugStOk (st : DebugState) : Bool :=
  st.symbols.all (fun kv => intOrNone kv.2.source_id) &&
  st.source_files.all (fun kv => strKey kv.1) &&
  intOrNone st.src_id &&
  (!st.header_tag.isSome || st.header_id.isSome)

theorem flushSymbolInfo_ok (st : DebugState) (hok : debugStOk st = true) :
    debugStOk (flushSymbolInfo st) = true := by
  unfold debugStOk at hok
  simp only [Bool.and_eq_true] at hok
  obtain ⟨⟨⟨h1, h2⟩, h3⟩, h4⟩ := hok
  unfold flushSymbolInfo
  cases hm : st.name_mangled with
  | none =>
    unfold debugStOk
    try dsimp only
    simp only [Bool.and_eq_true]
    exact ⟨⟨⟨h1, h2⟩, rfl⟩, h4⟩
  | some n =>
    by_cases hc : dictContains n st.symbols = true
    · have hupd := dictUpdate_all (fun kv => intOrNone kv.2.source_id) n
        (fun s => { s with source_id := st.src_id, source_line := st.src_line,
                           source_column := st.src_column }) st.symbols h1
        (fun v _ => by simpa using h3)
      unfold debugStOk
      try dsimp only
      rw [if_pos hc]
      try dsimp only
      simp only [Bool.and_eq_true]
      exact ⟨⟨⟨hupd, h2⟩, rfl⟩, h4⟩
    · unfold debugStOk
      try dsimp only
      rw [if_neg hc]
      try dsimp only
      simp only [Bool.and_eq_true]
      exact ⟨⟨⟨h1, h2⟩, rfl⟩, h4⟩

theorem debugLineStep_ok_inv (st : DebugState) (l : NameC) (st1 : DebugState)
    (hok : debugStOk st = true) (h : debugLineStep st l = .ok st1) :
    debugStOk st1 = true := by
  unfold debugLineStep at h
  repeat' split at h
  all_goals simp only [Except.ok.injEq, reduceCtorEq] at h
  all_goals subst h
  all_goals first
    | exact hok
    | (exfalso
       unfold debugStOk at hok
       simp only [Bool.and_eq_true] at hok
       have h4 := hok.2
       rw [‹st.header_id = none›, ‹st.header_tag = some ("DW_TAG_compile_unit".toList)›]
         at h4
       simp at h4)
    | (refine flushSymbolInfo_ok _ ?_
       unfold debugStOk at hok ⊢
       try dsimp only
       simp only [Bool.and_eq_true] at hok ⊢
       obtain ⟨⟨⟨h1, h2⟩, h3⟩, h4⟩ := hok
       refine ⟨⟨⟨?_, ?_⟩, ?_⟩, ?_⟩ <;>
         first
           | exact h1
           | exact h2
           | exact h3
           | exact h4
           | rfl
           | exact dictInsert_all _ _ _ _ h2 rfl)
    | (unfold debugStOk at hok ⊢
       try dsimp only
       simp only [Bool.and_eq_true] at hok ⊢
       obtain ⟨⟨⟨h1, h2⟩, h3⟩, h4⟩ := hok
       refine ⟨⟨⟨?_, ?_⟩, ?_⟩, ?_⟩ <;>
         first
           | exact h1
           | exact h2
           | exact h3
           | exact h4
           | rfl
           | exact dictInsert_all _ _ _ _ h2 rfl)

theorem parseReadelfOutput_ok_inv (rlines : List NameC) :
    ∀ (st st' : DebugState), debugStOk st = true →
      parseReadelfOutput st rlines = .ok st' → debugStOk st' = true := by
  induction rlines with
  | nil =>
    intro st st' hok h
    simp [parseReadelfOutput] at h
    rw [← h]
    exact flushSymbolInfo_ok st hok
  | cons l ls ih =>
    intro st st' hok h
    unfold parseReadelfOutput at h
    cases hs : debugLineStep st l with
    | error e =>
      rw [hs] at h
      exact absurd h (by simp)
    | ok st1 =>
      rw [hs] at h
      exact ih st1 st' (debugLineStep_ok_inv st l st1 hok hs) h

/-- Every symbol of the table has a None-or-int source id. -/
def symbolsAllSrc (d : List (NameC × Symbol)) : Bool :=
  d.all (fun kv => intOrNone kv.2.source_id)

theorem propsLinePair_srcid (cfg : PropsConfig) (st : PropsState) (lm ld : NameC)
    (st1 : PropsState) (hall : symbolsAllSrc st.symbols = true)
    (h : propsLinePair cfg st lm ld = .ok st1) :
    symbolsAllSrc st1.symbols = true := by
  unfold propsLinePair at h
  repeat' split at h
  all_goals simp only [Except.ok.injEq, reduceCtorEq] at h
  all_goals subst h
  all_goals first
    | exact hall
    | (try dsimp only
       exact dictUpdate_all _ _ _ _ hall (fun v hv => hv))
    | (try dsimp only
       exact dictInsert_all _ _ _ _ hall rfl)

theorem propsFold_srcid (cfg : PropsConfig) (pairs : List (NameC × NameC)) :
    ∀ (st pst : PropsState), symbolsAllSrc st.symbols = true →
      propsFold cfg st pairs = .ok pst → symbolsAllSrc pst.symbols = true := by
  induction pairs with
  | nil =>
    intro st pst hall h
    simp [propsFold] at h
    rw [← h]
    exact hall
  | cons p t ih =>
    intro st pst hall h
    obtain ⟨lm, ld⟩ := p
    unfold propsFold at h
    cases hs : propsLinePair cfg st lm ld with
    | error e =>
      rw [hs] at h
      exact absurd h (by simp)
    | ok st2 =>
      rw [hs] at h
      exact ih st2 pst (propsLinePair_srcid cfg st lm ld st2 hall hs) h

theorem collectLine_srcid (ff : Option NameC) (st : CollectorState) (line : NameC)
    (hall : symbolsAllSrc st.symbols = true) :
    symbolsAllSrc (collectLine ff st line).symbols = true := by
  unfold collectLine
  dsimp only
  set u := unifyInstructionLine ff line with hu
  have hsym := checkSymbolHeaderLine_symbols st u
  by_cases h1 : (checkSymbolHeaderLine st u).1
  · simp [h1, hsym, hall]
  · simp only [h1, if_false, Bool.false_eq_true]
    set st1 := (checkSymbolHeaderLine st u).2 with hst1
    set st2 := if (instrMatch u).isSome then
        { st1 with n_instruction_lines := st1.n_instruction_lines + 1 } else st1
      with hst2
    have h2 : st2.symbols = st.symbols := by
      by_cases hm : (instrMatch u).isSome <;> simp [hst2, hm, hsym]
    cases hcur : st2.cur_symbol with
    | none => simpa [hcur, h2] using hall
    | some k =>
      cases hm : instrMatch u with
      | some instr =>
        simp only [hcur, hm]
        show symbolsAllSrc (dictUpdate k (fun s => addInstructions s instr) st2.symbols)
          = true
        rw [h2]
        exact dictUpdate_all _ _ _ _ hall (fun v hv => hv)
      | none =>
        by_cases hne : (!u.isEmpty) && !u.all pyIsSpace
        · simp only [hcur, hm, hne, if_true]
          show symbolsAllSrc (dictUpdate k
            (fun s => addInstructions s (preHighlightSourceCode u)) st2.symbols) = true
          rw [h2]
          exact dictUpdate_all _ _ _ _ hall (fun v hv => hv)
        · simp only [hcur, hm, hne]
          simpa [h2] using hall

theorem gatherSymbolInstructions_srcid (ff : Option NameC)
    (d : List (NameC × Symbol)) (lines : List NameC)
    (hall : symbolsAllSrc d = true) :
    symbolsAllSrc (gatherSymbolInstructions ff d lines).symbols = true := by
  unfold gatherSymbolInstructions
  dsimp only
  have hfold : ∀ (ls : List NameC) (st : CollectorState),
      symbolsAllSrc st.symbols = true →
      symbolsAllSrc (ls.foldl (collectLine ff) st).symbols = true := by
    intro ls
    induction ls with
    | nil => intro st hst; exact hst
    | cons x t ih =>
      intro st hst
      rw [List.foldl_cons]
      exact ih _ (collectLine_srcid ff st x hst)
  have hcoll : symbolsAllSrc (gatherCollect ff ⟨d, none, [], 0⟩ lines).symbols = true := by
    unfold gatherCollect
    by_cases hc : (lines.foldl (collectLine ff) ⟨d, none, [], 0⟩).cur_symbol.isSome <;>
      simp only [hc, if_true, if_false, Bool.false_eq_true, submitSymbol_symbols] <;>
      exact hfold lines ⟨d, none, [], 0⟩ hall
  set stc := gatherCollect ff ⟨d, none, [], 0⟩ lines with hstc
  have hreadd : ∀ (ks : List NameC) (dd : List (NameC × Symbol)),
      symbolsAllSrc dd = true →
      symbolsAllSrc (ks.foldl
        (fun d k =>
          match dictLookup k d with
          | some s => dictInsert k (symbolInit s) d
          | none => d) dd) = true := by
    intro ks
    induction ks with
    | nil => intro dd hdd; exact hdd
    | cons k t ih =>
      intro dd hdd
      rw [List.foldl_cons]
      cases hl : dictLookup k dd with
      | none => simpa [hl] using ih dd hdd
      | some s =>
        simp only [hl]
        exact ih _ (dictInsert_all _ _ _ _ hdd (dictLookup_all _ k dd s hdd hl))
  exact hreadd stc.submitted stc.symbols hcoll

theorem intOrNone_ne_strKey (x y : PyVal) (hx : intOrNone x = true)
    (hy : strKey y = true) : x ≠ y := by
  cases x <;> cases y <;> simp_all [intOrNone, strKey]

theorem initSymbols_eq (d : List (NameC × Symbol)) : initSymbols d = d := by
  simp [initSymbols, symbolInit]

/-- C10: source files are registered under the raw header-id string while
symbol source ids are parsed ints (or remain None), so no symbol source id
is ever equal to a key of the source-file table and the cross-reference
never resolves - both for the debug phase from any well-typed state and
for the full construction pipeline. -/
theorem c10_source_file_key_mismatch :
    (∀ (st st' : DebugState) (rlines : List NameC),
      debugStOk st = true → parseReadelfOutput st rlines = .ok st' →
      (∀ key ∈ dictKeys st'.source_files, strKey key = true) ∧
      (∀ kv ∈ st'.symbols, intOrNone kv.2.source_id = true) ∧
      (∀ kv ∈ st'.symbols, ∀ key ∈ dictKeys st'.source_files,
        kv.2.source_id ≠ key)) ∧
    (∀ (excl sel : Option (NameC → Bool)) (mangling : Option Mangling)
        (ff : Option NameC) (outs : ToolOutputs) (bst : BinaryState),
      parseSymbolsPipeline excl sel mangling ff outs = .ok bst →
      ∀ kv ∈ bst.symbols, ∀ key ∈ dictKeys bst.source_files,
        kv.2.source_id ≠ key) := by
  have main : ∀ (st st' : DebugState) (rlines : List NameC),
      debugStOk st = true → parseReadelfOutput st rlines = .ok st' →
      (∀ key ∈ dictKeys st'.source_files, strKey key = true) ∧
      (∀ kv ∈ st'.symbols, intOrNone kv.2.source_id = true) ∧
      (∀ kv ∈ st'.symbols, ∀ key ∈ dictKeys st'.source_files,
        kv.2.source_id ≠ key) := by
    intro st st' rlines hok h
    have hout := parseReadelfOutput_ok_inv rlines st st' hok h
    unfold debugStOk at hout
    simp only [Bool.and_eq_true] at hout
    obtain ⟨⟨⟨h1, h2⟩, _⟩, _⟩ := hout
    have hkeys : ∀ key ∈ dictKeys st'.source_files, strKey key = true := by
      intro key hkey
      obtain ⟨kv, hkv, hfst⟩ := List.mem_map.mp hkey
      have := (List.all_eq_true.mp h2) kv hkv
      rw [← hfst]
      simpa using this
    have hsyms : ∀ kv ∈ st'.symbols, intOrNone kv.2.source_id = true := by
      intro kv hkv
      simpa using (List.all_eq_true.mp h1) kv hkv
    refine ⟨hkeys, hsyms, ?_⟩
    intro kv hkv key hkey
    exact intOrNone_ne_strKey _ _ (hsyms kv hkv) (hkeys key hkey)
  refine ⟨main, ?_⟩
  intro excl sel mangling ff outs bst h
  unfold parseSymbolsPipeline at h
  dsimp only at h
  cases hp : gatherSymbolProperties
      ⟨excl, sel, mangling, (determineSymbolSizes outs.size_output).binutils_work⟩
      outs.nm_mangled outs.nm_demangled with
  | error e =>
    rw [hp] at h
    exact absurd h (by simp)
  | ok pst =>
    rw [hp] at h
    dsimp only at h
    cases hr : parseReadelfOutput
        ⟨(gatherSymbolInstructions ff pst.symbols outs.disassembly).symbols,
          [], none, none, none, .pnone, .pnone, .pnone⟩ outs.readelf with
    | error e =>
      rw [hr] at h
      exact absurd h (by simp)
    | ok dst =>
      rw [hr] at h
      simp only [Except.ok.injEq] at h
      subst h
      have hprops : symbolsAllSrc pst.symbols = true :=
        propsFold_srcid
          ⟨excl, sel, mangling, (determineSymbolSizes outs.size_output).binutils_work⟩
          (List.zip outs.nm_mangled outs.nm_demangled) ⟨[], 0⟩ pst rfl hp
      have hdis : symbolsAllSrc
          (gatherSymbolInstructions ff pst.symbols outs.disassembly).symbols = true :=
        gatherSymbolInstructions_srcid ff pst.symbols outs.disassembly hprops
      have hok0 : debugStOk
          ⟨(gatherSymbolInstructions ff pst.symbols outs.disassembly).symbols,
            [], none, none, none, .pnone, .pnone, .pnone⟩ = true := by
        unfold debugStOk
        simp only [Bool.and_eq_true]
        exact ⟨⟨⟨hdis, rfl⟩, rfl⟩, rfl⟩
      have hall := main _ dst outs.readelf hok0 hr
      intro kv hkv key hkey
      dsimp only at hkv hkey
      rw [initSymbols_eq] at hkv
      exact hall.2.2 kv hkv key hkey

/-- A well-typed debug state holding one symbol with parsed source id 1
and one source file registered under the header-id string 1. -/
def c10ExampleState : DebugState :=
  ⟨[(("f".toList),
      { mkSymbol ("f".toList) ("f".toList) true with source_id := PyVal.pint 1 })],
   [(PyVal.pstr ("1".toList), ⟨("main.c".toList), PyVal.pstr ("1".toList)⟩)],
   none, none, none, .pnone, .pnone, .pnone⟩

/-- Witness for C10: the symbol whose declaring-file attribute parsed to
the int 1 does not resolve against the source file keyed by the string 1. -/
theorem c10_source_file_key_mismatch_witness :
    debugStOk c10ExampleState = true ∧
    parseReadelfOutput c10ExampleState [] =
      .ok (flushSymbolInfo c10ExampleState) ∧
    PyVal.pint 1 ≠ PyVal.pstr ("1".toList) :=
  ⟨by decide, rfl,
   (c10_source_file_key_mismatch.1 c10ExampleState
      (flushSymbolInfo c10ExampleState) [] (by decide) rfl).2.2
     (("f".toList),
       { mkSymbol ("f".toList) ("f".toList) true with source_id := PyVal.pint 1 })
     (by decide) (PyVal.pstr ("1".toList)) (by decide)⟩

/-! ### Claim C9: property extraction keys each mangled name once -/

/-- The accepted records of a zipped size-listing output: for every pair
whose mangled line matches the nm pattern (with a parseable size), the
mangled name with the size and kind of that line. -/
def nmRecords (pairs : List (NameC × NameC)) : List (NameC × Int × Char) :=
  pairs.filterMap (fun p =>
    match nmLineMatch p.1 with
    | some (s, k, n) =>
      match pyInt s with
      | some v => some (n, v, k)
      | none => none
    | none => none)

/-- The records carrying a given mangled name, in output order. -/
def recsFor (n : NameC) (pairs : List (NameC × NameC)) : List (NameC × Int × Char) :=
  (nmRecords pairs).filter (fun r => decide (r.1 = n))

/-- Well-formed size-listing output: whenever the mangled line matches,
the demangled partner matches too and the size field is decimal. -/
def nmWellFormed (pairs : List (NameC × NameC)) : Bool :=
  pairs.all (fun p =>
    match nmLineMatch p.1 with
    | some (s, _, _) => (nmLineMatch p.2).isSome && (pyInt s).isSome
    | none => true)

theorem propsFold_props_aux (mangling : Option Mangling) (bw : Bool) :
    ∀ (pairs : List (NameC × NameC)) (st : PropsState),
      nmWellFormed pairs = true → (dictKeys st.symbols).Nodup →
      ∃ pst, propsFold ⟨none, none, mangling, bw⟩ st pairs = .ok pst ∧
        (dictKeys pst.symbols).Nodup ∧
        (∀ n, n ∈ dictKeys pst.symbols ↔
          (n ∈ dictKeys st.symbols ∨ n ∈ (nmRecords pairs).map Prod.fst)) ∧
        (∀ n, recsFor n pairs = [] →
          dictLookup n pst.symbols = dictLookup n st.symbols) ∧
        (∀ n r, (recsFor n pairs).getLast? = some r →
          ∃ s, dictLookup n pst.symbols = some s ∧
            s.size = r.2.1 ∧ s.type_ = some r.2.2) := by
  intro pairs
  induction pairs with
  | nil =>
    intro st hwf hnodup
    exact ⟨st, rfl, hnodup, fun n => by simp [nmRecords],
      fun n _ => rfl, fun n r hr => by simp [recsFor, nmRecords] at hr⟩
  | cons p t ih =>
    obtain ⟨lm, ld⟩ := p
    intro st hwf hnodup
    have hwf_head := (List.all_eq_true.mp hwf) (lm, ld) (by simp)
    have hwf_t : nmWellFormed t = true := by
      unfold nmWellFormed at hwf ⊢
      simp only [List.all_cons, Bool.and_eq_true] at hwf
      exact hwf.2
    cases hm : nmLineMatch lm with
    | none =>
      have hstep : propsLinePair ⟨none, none, mangling, bw⟩ st lm ld = .ok st := by
        unfold propsLinePair
        rw [hm]
      have hrec : nmRecords ((lm, ld) :: t) = nmRecords t := by
        simp [nmRecords, hm]
      have hrf : ∀ n, recsFor n ((lm, ld) :: t) = recsFor n t := by
        intro n
        simp [recsFor, hrec]
      obtain ⟨pst, hfold, hnd, hmem, hpres, hlast⟩ := ih st hwf_t hnodup
      refine ⟨pst, ?_, hnd, ?_, ?_, ?_⟩
      · unfold propsFold
        rw [hstep]
        exact hfold
      · intro n
        rw [hrec]
        exact hmem n
      · intro n h0
        rw [hrf n] at h0
        exact hpres n h0
      · intro n r h0
        rw [hrf n] at h0
        exact hlast n r h0
    | some trip =>
      obtain ⟨s, k, n0⟩ := trip
      rw [hm] at hwf_head
      simp only [Bool.and_eq_true] at hwf_head
      obtain ⟨hld, hpy⟩ := hwf_head
      cases hd : nmLineMatch ld with
      | none =>
        rw [hd] at hld
        exact absurd hld (by simp)
      | some tripd =>
        obtain ⟨sd, kd, nameD⟩ := tripd
        cases hv : pyInt s with
        | none =>
          rw [hv] at hpy
          exact absurd hpy (by simp)
        | some v =>
          have hrec : nmRecords ((lm, ld) :: t) = (n0, v, k) :: nmRecords t := by
            simp [nmRecords, hm, hv]
          have hrf : ∀ n, recsFor n ((lm, ld) :: t) =
              (if n0 = n then (n0, v, k) :: recsFor n t else recsFor n t) := by
            intro n
            unfold recsFor
            rw [hrec]
            by_cases h : n0 = n <;> simp [List.filter, h]
          by_cases hc : dictContains n0 st.symbols = true
          · obtain ⟨w, hw⟩ : ∃ w, dictLookup n0 st.symbols = some w := by
              unfold dictContains at hc
              exact Option.isSome_iff_exists.mp hc
            have hstep : propsLinePair ⟨none, none, mangling, bw⟩ st lm ld = .ok { st with symbols := dictUpdate n0 (fun sym => { sym with size := v, type_ := some k }) st.symbols } := by
              unfold propsLinePair
              rw [hm, hd]
              dsimp only
              rw [hc]
              simp [hv]
            set st1 : PropsState := { st with symbols := dictUpdate n0 (fun sym => { sym with size := v, type_ := some k }) st.symbols } with hst1
            have hkeys1 : dictKeys st1.symbols = dictKeys st.symbols := by
              simp [hst1, dictKeys_update]
            have hnodup1 : (dictKeys st1.symbols).Nodup := by
              rw [hkeys1]
              exact hnodup
            obtain ⟨pst, hfold, hnd, hmem, hpres, hlast⟩ := ih st1 hwf_t hnodup1
            refine ⟨pst, ?_, hnd, ?_, ?_, ?_⟩
            · unfold propsFold
              rw [hstep]
              exact hfold
            · intro n
              rw [hrec]
              have himp : n = n0 → n ∈ dictKeys st.symbols := by
                intro h
                subst h
                exact (dictContains_iff n st.symbols).mp hc
              rw [hmem n, hkeys1]
              simp only [List.map_cons, List.mem_cons]
              constructor
              · rintro (h | h)
                · exact Or.inl h
                · exact Or.inr (Or.inr h)
              · rintro (h | h | h)
                · exact Or.inl h
                · exact Or.inl (himp h)
                · exact Or.inr h
            · intro n h0
              rw [hrf n] at h0
              by_cases hn : n0 = n
              · simp [hn] at h0
              · simp only [hn, if_false] at h0
                rw [hpres n h0, hst1]
                dsimp only
                rw [dictLookup_update]
                simp [hn]
            · intro n r h0
              rw [hrf n] at h0
              by_cases hn : n0 = n
              · subst hn
                rw [if_pos rfl] at h0
                cases hrt : recsFor n0 t with
                | nil =>
                  rw [hrt] at h0
                  simp at h0
                  rw [hpres n0 hrt, hst1]
                  dsimp only
                  rw [dictLookup_update]
                  simp only [if_pos rfl, hw, Option.map_some]
                  exact ⟨_, rfl, by rw [← h0], by rw [← h0]⟩
                | cons x xs =>
                  rw [hrt] at h0
                  rw [List.getLast?_cons_cons] at h0
                  rw [← hrt] at h0
                  exact hlast n0 r h0
              · rw [if_neg hn] at h0
                exact hlast n r h0
          · have hc' : dictContains n0 st.symbols = false := by
              simpa using hc
            set sym1 : Symbol := symbolInit { mkSymbol n0 (binaryDemangle mangling bw nameD).1 (binaryDemangle mangling bw nameD).2 with size := v, type_ := some k } with hsym1
            have hstep : propsLinePair ⟨none, none, mangling, bw⟩ st lm ld = .ok { st with symbols := dictInsert n0 sym1 st.symbols } := by
              unfold propsLinePair
              rw [hm, hd]
              dsimp only
              rw [hc']
              simp [hv, isSymbolSelected, hsym1]
            set st1 : PropsState := { st with symbols := dictInsert n0 sym1 st.symbols } with hst1
            have hnodup1 : (dictKeys st1.symbols).Nodup := by
              exact dictKeys_insert_nodup n0 sym1 st.symbols hnodup
            obtain ⟨pst, hfold, hnd, hmem, hpres, hlast⟩ := ih st1 hwf_t hnodup1
            refine ⟨pst, ?_, hnd, ?_, ?_, ?_⟩
            · unfold propsFold
              rw [hstep]
              exact hfold
            · intro n
              rw [hrec]
              rw [hmem n]
              have hki : n ∈ dictKeys st1.symbols ↔
                  (n ∈ dictKeys st.symbols ∨ n = n0) := by
                exact dictKeys_mem_insert n0 n sym1 st.symbols
              rw [hki]
              simp only [List.map_cons, List.mem_cons]
              constructor
              · rintro ((h | h) | h)
                · exact Or.inl h
                · exact Or.inr (Or.inl h)
                · exact Or.inr (Or.inr h)
              · rintro (h | h | h)
                · exact Or.inl (Or.inl h)
                · exact Or.inl (Or.inr h)
                · exact Or.inr h
            · intro n h0
              rw [hrf n] at h0
              by_cases hn : n0 = n
              · simp [hn] at h0
              · simp only [hn, if_false] at h0
                rw [hpres n h0, hst1]
                dsimp only
                rw [dictLookup_insert]
                simp [hn]
            · intro n r h0
              rw [hrf n] at h0
              by_cases hn : n0 = n
              · subst hn
                rw [if_pos rfl] at h0
                cases hrt : recsFor n0 t with
                | nil =>
                  rw [hrt] at h0
                  simp at h0
                  rw [hpres n0 hrt, hst1]
                  dsimp only
                  rw [dictLookup_insert]
                  simp only [if_pos rfl]
                  refine ⟨sym1, rfl, ?_, ?_⟩ <;> rw [← h0] <;> rfl
                | cons x xs =>
                  rw [hrt] at h0
                  rw [List.getLast?_cons_cons] at h0
                  rw [← hrt] at h0
                  exact hlast n0 r h0
              · rw [if_neg hn] at h0
                exact hlast n r h0

/-- C9: with no selection or exclusion pattern configured, well-formed
size-listing output populates the symbols mapping with every distinct
mangled name exactly once (keys without duplicates), and a name occurring
on several lines keeps one record whose size and kind come from the last
such line. -/
theorem c9_properties_no_duplicates (mangling : Option Mangling) (bw : Bool)
    (nm_mangled nm_demangled : List NameC)
    (hwf : nmWellFormed (List.zip nm_mangled nm_demangled) = true) :
    ∃ pst, gatherSymbolProperties ⟨none, none, mangling, bw⟩
        nm_mangled nm_demangled = .ok pst ∧
      (dictKeys pst.symbols).Nodup ∧
      (∀ n, n ∈ dictKeys pst.symbols ↔
        n ∈ (nmRecords (List.zip nm_mangled nm_demangled)).map Prod.fst) ∧
      (∀ n r, (recsFor n (List.zip nm_mangled nm_demangled)).getLast? = some r →
        ∃ s, dictLookup n pst.symbols = some s ∧
          s.size = r.2.1 ∧ s.type_ = some r.2.2) := by
  obtain ⟨pst, hfold, hnd, hmem, hpres, hlast⟩ :=
    propsFold_props_aux mangling bw (List.zip nm_mangled nm_demangled)
      ⟨[], 0⟩ hwf (by simp [dictKeys])
  refine ⟨pst, hfold, hnd, ?_, hlast⟩
  intro n
  rw [hmem n]
  simp [dictKeys]

def c9MangledLines : List NameC :=
  [("00000000 00000010 T foo".toList),
   ("00000000 00000020 D foo".toList),
   ("not a symbol line".toList),
   ("00000000 00000005 T bar".toList)]

def c9DemangledLines : List NameC :=
  [("00000000 00000010 T foo()".toList),
   ("00000000 00000020 D foo()".toList),
   ("not a symbol line".toList),
   ("00000000 00000005 T bar()".toList)]

/-- Witness for C9: a duplicated mangled name stays a single key. -/
theorem c9_properties_no_duplicates_witness :
    nmWellFormed (List.zip c9MangledLines c9DemangledLines) = true ∧
    (match gatherSymbolProperties ⟨none, none, none, true⟩
        c9MangledLines c9DemangledLines with
      | .ok pst => (dictKeys pst.symbols).Nodup ∧
          ("foo".toList) ∈ dictKeys pst.symbols
      | .error _ => False) := by
  refine ⟨by decide, ?_⟩
  obtain ⟨pst, hok, hnd, hmem, hlast⟩ :=
    c9_properties_no_duplicates none true c9MangledLines c9DemangledLines (by decide)
  rw [hok]
  exact ⟨hnd, (hmem ("foo".toList)).mpr (by decide)⟩

end ElfDiff
